import Mathlib

/-!
Shallow embedding of `allrank/training/train_utils.py` (repository gtw2).

Floats are modelled as rationals; the non-finite IEEE values that the
per-query evaluator inspects with `torch.isnan` are modelled by the
dedicated type `FVal`.  Python dictionaries are modelled as association
lists with first-occurrence lookup; `dict.update` overwrites, while
`dict.setdefault` inserts only a missing key, exactly as in CPython.
External collaborators (the model, the loss, the metric registry) are
function parameters, as the spec declares them out of scope.
-/

deriving instance DecidableEq for Except

namespace AR

/-- Feature scalar: a rational for finite values plus the IEEE non-finite
values (NaN and the two infinities), which the source inspects with
`torch.isnan`. -/
inductive FVal where
  | fin : ℚ → FVal
  | nan : FVal
  | posInf : FVal
  | negInf : FVal
deriving DecidableEq

/-- Embedding of `torch.isnan` on one scalar. -/
def isnan : FVal → Bool
  | FVal.nan => true
  | _ => false

/-- Embedding of `torch.isfinite` on one scalar. -/
def isfinite : FVal → Bool
  | FVal.fin _ => true
  | _ => false

/-- Modelled from the spec: `PADDED_Y_VALUE` is imported from
`allrank.data.dataset_loading`, which is not under src/; the spec (3, Data
model) describes it as a reserved sentinel label value.  Its concrete value
is irrelevant to every claim below. -/
def PADDED_Y_VALUE : ℚ := -1

/-- Python truthiness of the `gradient_clipping_norm` argument, which is
either None or a float: `None` and `0.0` are falsy, every other float
(negative ones included) is truthy. -/
def pyTruthy : Option ℚ → Bool
  | none => false
  | some x => decide (x ≠ 0)

/-- One training or validation batch `(xb, yb, indices)`. -/
structure Batch where
  xb : List (List (List FVal))
  yb : List (List ℚ)
  indices : List (List ℕ)
deriving DecidableEq

/-- Embedding of `yb == PADDED_Y_VALUE`, the elementwise padding mask. -/
def bmask (yb : List (List ℚ)) : List (List Bool) :=
  yb.map (fun row => row.map (fun v => decide (v = PADDED_Y_VALUE)))

/-- Observable outcome of `loss_batch`: the returned pair
`(loss.item(), len(xb))` plus, as an instrumented observation of the side
effect, the argument of the `clip_grad_norm_` call when one happens. -/
structure LossBatchOut where
  loss : ℚ
  size : ℕ
  clippedTo : Option ℚ
deriving DecidableEq

/-- Embedding of `loss_batch` (train_utils.py lines 18-29).  `model` and
`loss_func` are the external collaborators; `optGiven` models `opt` being
not None.  `clip_grad_norm_` runs iff an optimizer was supplied and
`gradient_clipping_norm` is truthy, because the source guards it with the
bare `if gradient_clipping_norm:`. -/
def loss_batch (model : List (List (List FVal)) → List (List Bool) → List (List ℕ) → List (List ℚ))
    (loss_func : List (List ℚ) → List (List ℚ) → ℚ)
    (xb : List (List (List FVal))) (yb : List (List ℚ)) (indices : List (List ℕ))
    (gradient_clipping_norm : Option ℚ) (optGiven : Bool) : LossBatchOut :=
  { loss := loss_func (model xb (bmask yb) indices) yb
    size := xb.length
    clippedTo := if optGiven && pyTruthy gradient_clipping_norm then gradient_clipping_norm else none }

/-- Embedding of `np.sum(np.multiply(losses, nums)) / np.sum(nums)` applied
to the unzipped `(loss, num)` pairs, as in `fit` (lines 157 and 168). -/
def weightedLoss (bs : List (ℚ × ℕ)) : ℚ :=
  (bs.map (fun p => p.1 * (p.2 : ℚ))).sum / (bs.map (fun p => (p.2 : ℚ))).sum

/-- The training-epoch loss pipeline of `fit` (lines 153-157): run
`loss_batch` with the optimizer over every training batch and combine the
returned pairs with the size-weighted mean. -/
def train_epoch_loss (model : List (List (List FVal)) → List (List Bool) → List (List ℕ) → List (List ℚ))
    (loss_func : List (List ℚ) → List (List ℚ) → ℚ)
    (gcn : Option ℚ) (batches : List Batch) : ℚ :=
  weightedLoss ((batches.map (fun b => loss_batch model loss_func b.xb b.yb b.indices gcn true)).map
    (fun o => (o.loss, o.size)))

/-- Spec-side comparator: the naive per-batch average of the same losses,
which the spec says the epoch loss must NOT be. -/
def naive_loss_mean (model : List (List (List FVal)) → List (List Bool) → List (List ℕ) → List (List ℚ))
    (loss_func : List (List ℚ) → List (List ℚ) → ℚ)
    (gcn : Option ℚ) (batches : List Batch) : ℚ :=
  ((batches.map (fun b => (loss_batch model loss_func b.xb b.yb b.indices gcn true).loss)).sum) /
    (batches.length : ℚ)

/-- Association-list lookup with Python dict semantics (`d.get(k)` /
`d[k]`): the first entry whose key equals `k`, if any. -/
def alookup {α : Type} (d : List (String × α)) (k : String) : Option α :=
  (d.find? (fun p => p.1 == k)).map Prod.snd

/-- Key membership test for an association list. -/
def hasKey {α : Type} (d : List (String × α)) (k : String) : Bool :=
  d.any (fun p => p.1 == k)

/-- In-place value update of the first entry holding key `k` (Python
mutates the one slot of the dict). -/
def aupdate {α : Type} : List (String × α) → String → (α → α) → List (String × α)
  | [], _, _ => []
  | p :: rest, k, f => if p.1 = k then (p.1, f p.2) :: rest else p :: aupdate rest k f

/-- Modelled from the spec: `class EarlyStop`
(`allrank/training/early_stop.py`) is not under src/.  Spec 4.3: `best_value`
starts unset; `step` updates best value and epoch exactly on a strict
improvement (higher is better); a missing current value (`None`) must not
crash and counts as no improvement; `stop_training` is true iff
`epoch - best_epoch >= patience`, with patience 0 or unset disabling the
rule entirely. -/
structure EarlyStop where
  patience : Option ℕ
  best_value : Option ℚ
  best_epoch : ℕ
deriving DecidableEq

/-- Modelled from the spec: the `EarlyStop.step` transition of spec 4.3. -/
def EarlyStop.step (es : EarlyStop) (current : Option ℚ) (epoch : ℕ) : EarlyStop :=
  match current with
  | none => es
  | some c =>
    match es.best_value with
    | none => { patience := es.patience, best_value := some c, best_epoch := epoch }
    | some b =>
      if b < c then { patience := es.patience, best_value := some c, best_epoch := epoch } else es

/-- Modelled from the spec: the `EarlyStop.stop_training` decision of
spec 4.3. -/
def EarlyStop.stop_training (es : EarlyStop) (epoch : ℕ) : Bool :=
  match es.patience with
  | none => false
  | some 0 => false
  | some p => decide (p ≤ epoch - es.best_epoch)

/-- Python exceptions that the `fit` loop of the source can raise. -/
inductive PyError where
  | keyError : String → PyError
  | valueError : PyError
  | nameError : String → PyError
deriving DecidableEq

/-- Configuration surface consumed by `fit`.  The scheduler collaborator is
abstracted to the two facts `fit` inspects: whether one was supplied
(`if scheduler:`) and whether its concrete type is ReduceLROnPlateau. -/
structure FitConfig where
  epochs : ℕ
  metrics : List (String × List ℕ)
  val_metric : String
  gradient_clipping_norm : Option ℚ
  early_stopping_patience : Option ℕ
  schedulerPresent : Bool
  schedulerIsPlateau : Bool
deriving DecidableEq

/-- Environment of one epoch of the `fit` loop: the `(loss, size)` pairs
returned by the `loss_batch` calls over the training and validation splits,
and the metric dictionaries returned by the two `compute_metrics` calls.
They are inputs because they depend on the external model, which training
mutates between epochs. -/
structure EpochData where
  trainBatches : List (ℚ × ℕ)
  valBatches : List (ℚ × ℕ)
  trainMetrics : List (String × ℚ)
  valMetrics : List (String × ℚ)
deriving DecidableEq

/-- Observable per-epoch outcome of the `fit` loop body. -/
structure EpochOutcome where
  train_loss : ℚ
  val_loss : ℚ
  train_metrics : List (String × ℚ)
  val_metrics : List (String × ℚ)
  es : EarlyStop
  stop : Bool
deriving DecidableEq

/-- One iteration of the `fit` epoch loop (lines 146-200), in source
order: unpack-and-average the training `loss_batch` results (`zip(* [])`
raises ValueError on an empty split), same for validation, read
`val_metrics.get(config.val_metric)`, step the scheduler (the plateau
branch indexes `val_metrics[config.val_metric]`, raising KeyError when the
key is absent), then `early_stop.step` and the `stop_training` check. -/
def runEpoch (cfg : FitConfig) (d : EpochData) (es : EarlyStop) (epoch : ℕ) :
    Except PyError EpochOutcome :=
  if d.trainBatches.isEmpty then Except.error PyError.valueError else
  if d.valBatches.isEmpty then Except.error PyError.valueError else
  let current := alookup d.valMetrics cfg.val_metric
  if cfg.schedulerPresent && cfg.schedulerIsPlateau && current.isNone then
    Except.error (PyError.keyError cfg.val_metric)
  else
    let es2 := es.step current epoch
    Except.ok { train_loss := weightedLoss d.trainBatches
                val_loss := weightedLoss d.valBatches
                train_metrics := d.trainMetrics
                val_metrics := d.valMetrics
                es := es2
                stop := es2.stop_training epoch }

/-- The loop-carried Python locals that survive the `for` loop and feed the
final `return` statement. -/
structure LastEpoch where
  epoch : ℕ
  train_loss : ℚ
  val_loss : ℚ
  train_metrics : List (String × ℚ)
  val_metrics : List (String × ℚ)
deriving DecidableEq

/-- Observable control events of a `fit` run: the top of each loop
iteration (the learning-rate log statement of line 147). -/
inductive FitEvent where
  | epochStarted : ℕ → FitEvent
deriving DecidableEq

/-- The `for epoch in range(epochs)` loop of `fit`, driven by the remaining
iteration count.  An exception propagates out of the loop; `break` on
`stop_training` exits early; the loop-carried locals of the last completed
iteration are kept. -/
def fitGo (cfg : FitConfig) (data : ℕ → EpochData) :
    ℕ → ℕ → EarlyStop → Option LastEpoch → List FitEvent →
    List FitEvent × Except PyError (Option LastEpoch)
  | 0, _, _, last, evs => (evs, Except.ok last)
  | n + 1, epoch, es, _last, evs =>
    let evs2 := evs ++ [FitEvent.epochStarted epoch]
    match runEpoch cfg (data epoch) es epoch with
    | Except.error e => (evs2, Except.error e)
    | Except.ok o =>
      let last2 : Option LastEpoch :=
        some { epoch := epoch, train_loss := o.train_loss, val_loss := o.val_loss
               train_metrics := o.train_metrics, val_metrics := o.val_metrics }
      if o.stop then (evs2, Except.ok last2)
      else fitGo cfg data n (epoch + 1) o.es last2 evs2

/-- Values appearing in the dictionary returned by `fit`. -/
inductive RVal where
  | nat : ℕ → RVal
  | dict : List (String × ℚ) → RVal
deriving DecidableEq

/-- The dictionary literal of the `return` statement of `fit`
(lines 204-209), key for key in source order. -/
def fitReturn (num_params : ℕ) (l : LastEpoch) : List (String × RVal) :=
  [("epochs", RVal.nat l.epoch),
   ("train_metrics", RVal.dict l.train_metrics),
   ("val_metrics", RVal.dict l.val_metrics),
   ("num_params", RVal.nat num_params)]

/-- Observable outcome of a whole `fit` call: the control events, whether
`torch.save` ran, whether the tensorboard writers were closed, and the
returned dictionary or the propagated exception. -/
structure FitRun where
  events : List FitEvent
  saved : Bool
  closed : Bool
  outcome : Except PyError (List (String × RVal))
deriving DecidableEq

/-- Post-loop part of `fit`: an exception from the loop skips everything;
otherwise `torch.save` and `close_all_writers` always run, and the
`return` statement then raises NameError when the loop body never ran
(its locals `epoch`, `train_metrics`, `val_metrics` are unbound). -/
def fitAssemble (num_params : ℕ) :
    List FitEvent × Except PyError (Option LastEpoch) → FitRun
  | (evs, Except.error e) =>
    { events := evs, saved := false, closed := false, outcome := Except.error e }
  | (evs, Except.ok none) =>
    { events := evs, saved := true, closed := true
      outcome := Except.error (PyError.nameError "epoch") }
  | (evs, Except.ok (some l)) =>
    { events := evs, saved := true, closed := true, outcome := Except.ok (fitReturn num_params l) }

/-- Embedding of `fit` (lines 141-209): build the EarlyStop controller
from the configured patience, run the epoch loop from epoch 0, then save
the model, close the writers and build the returned dictionary. -/
def fit (cfg : FitConfig) (num_params : ℕ) (data : ℕ → EpochData) : FitRun :=
  fitAssemble num_params
    (fitGo cfg data cfg.epochs 0
      { patience := cfg.early_stopping_patience, best_value := none, best_epoch := 0 } none [])

/-- Substring test over character lists: does `pat` occur contiguously? -/
def startsWithL : List Char → List Char → Bool
  | _, [] => true
  | [], _ :: _ => false
  | a :: as, b :: bs => a = b && startsWithL as bs

/-- Substring occurrence anywhere in the list. -/
def hasSubList (pat : List Char) : List Char → Bool
  | [] => startsWithL [] pat
  | c :: rest => startsWithL (c :: rest) pat || hasSubList pat rest

/-- Embedding of the Python substring test `"ndcg" in s`. -/
def containsNdcg (s : String) : Bool :=
  hasSubList "ndcg".data s.data

/-- The output-key list `["{metric_name}_{at}" for at in ats]` built in
`compute_metrics` and `compute_test`. -/
def keysOf (n : String) (ats : List ℕ) : List String :=
  ats.map (fun a => n ++ "_" ++ Nat.repr a)

/-- All output keys of a metric configuration, in configuration order. -/
def metricKeys (spec : List (String × List ℕ)) : List String :=
  (spec.map (fun p => keysOf p.1 p.2)).flatten

/-- File name of the per-cutoff output stream
`str(epoch) + ".model.predict." + m + ".txt"`. -/
def mfile (epoch : ℕ) (m : String) : String :=
  Nat.repr epoch ++ ".model.predict." ++ m ++ ".txt"

/-- File name of the full prediction dump `str(epoch) + ".model.predict.txt"`. -/
def predictFileName (epoch : ℕ) : String :=
  Nat.repr epoch ++ ".model.predict.txt"

/-- Embedding of `numpy` transpose of a rectangular matrix followed by the
iteration over its rows: the columns of `vals`, one list per original
column index.  The width is the column count of the tensor, i.e. the
length of its first row. -/
def columnsOf (vals : List (List ℚ)) : List (List ℚ) :=
  (List.range (vals.headD []).length).map (fun j => vals.map (fun r => r.getD j 0))

/-- Embedding of `np.mean` over a Python list of equally shaped arrays: it
flattens everything and averages the scalars. -/
def npMeanFlat (xss : List (List ℚ)) : ℚ :=
  (xss.flatten).sum / ((xss.flatten).length : ℚ)

/-- Opening a file with mode "w": truncate it when present, create it
empty otherwise. -/
def fwrite (fs : List (String × List String)) (k : String) : List (String × List String) :=
  if hasKey fs k then aupdate fs k (fun _ => []) else fs ++ [(k, [])]

/-- Opening a file with mode "a" and writing `ls`: append to its lines,
creating the file when absent. -/
def fappend (fs : List (String × List String)) (k : String) (ls : List String) :
    List (String × List String) :=
  if hasKey fs k then aupdate fs k (fun old => old ++ ls) else fs ++ [(k, ls)]

/-- Python `d.setdefault(m, [])` on the per-key accumulator dictionary. -/
def setdefaultR (d : List (String × List (List ℚ))) (m : String) :
    List (String × List (List ℚ)) :=
  if hasKey d m then d else d ++ [(m, [])]

/-- Python `d.setdefault(m, v)` on the returned metric dictionary. -/
def setdefaultD (d : List (String × ℚ)) (m : String) (v : ℚ) : List (String × ℚ) :=
  if hasKey d m then d else d ++ [(m, v)]

/-- Python `d[k] = v` as performed by `dict.update` entry by entry:
overwrite when present, append otherwise. -/
def dictUpdate (d : List (String × ℚ)) (kv : String × ℚ) : List (String × ℚ) :=
  if hasKey d kv.1 then aupdate d kv.1 (fun _ => kv.2) else d ++ [kv]

/-- One batch of the batched evaluation path, as produced by the data
loader. -/
structure TBatch where
  xb : List (List (List FVal))
  yb : List (List ℚ)
  indices : List (List ℕ)
deriving DecidableEq

/-- Type of the scoring collaborator `model.score(x, mask, indices)`: a
batch of slates of feature vectors, the padding mask, optional indices
(`compute_test` passes None), one score row per example. -/
def ScoreFn : Type :=
  List (List (List FVal)) → List (List Bool) → Option (List (List ℕ)) → List (List ℚ)

/-- Type of the metric registry: a metric name plus its `ats` giving the
function `(scores, ys) -> per-example rows of per-cutoff values`. -/
def MetricFn : Type :=
  String → List ℕ → List (List ℚ) → List (List ℚ) → List (List ℚ)

/-- Embedding of `metric_on_batch` (lines 32-34). -/
def metric_on_batch (metric : List (List ℚ) → List (List ℚ) → List (List ℚ))
    (score : ScoreFn) (b : TBatch) : List (List ℚ) :=
  metric (score b.xb (bmask b.yb) (some b.indices)) b.yb

/-- Embedding of `metric_on_epoch` (lines 37-44):
`torch.mean(torch.cat([...per batch...]), dim=0)`, i.e. concatenate the
per-batch per-example rows and take the per-column mean over all
examples. -/
def metric_on_epoch (metric : List (List ℚ) → List (List ℚ) → List (List ℚ))
    (score : ScoreFn) (dl : List TBatch) : List ℚ :=
  (List.range (((dl.map (metric_on_batch metric score)).flatten).headD []).length).map
    (fun j => (((dl.map (metric_on_batch metric score)).flatten).map (fun r => r.getD j 0)).sum /
      (((dl.map (metric_on_batch metric score)).flatten).length : ℚ))

/-- Body of the per-metric loop of `compute_metrics` (lines 49-54): zip
the keys of one configured metric with its epoch means and merge the pairs
into the result dictionary. -/
def cmEntry (metricF : MetricFn) (score : ScoreFn) (dl : List TBatch)
    (d : List (String × ℚ)) (p : String × List ℕ) : List (String × ℚ) :=
  (List.zip (keysOf p.1 p.2) (metric_on_epoch (metricF p.1 p.2) score dl)).foldl dictUpdate d

/-- Embedding of `compute_metrics` (lines 47-56): for each configured
metric, zip the keys with the epoch means and merge into the result
dictionary. -/
def compute_metrics (spec : List (String × List ℕ)) (metricF : MetricFn)
    (score : ScoreFn) (dl : List TBatch) : List (String × ℚ) :=
  spec.foldl (cmEntry metricF score dl) []

/-- One query of the per-query dataset (`X_by_qid[q]`, `y_by_qid[q]`). -/
structure Query where
  x : List (List FVal)
  y : List ℚ
deriving DecidableEq

/-- Embedding of `temp_querie_x_tensor[torch.isnan(temp_querie_x_tensor)] = 0`
on the single-query feature matrix. -/
def sanitizeQ (x : List (List FVal)) : List (List FVal) :=
  x.map (fun row => row.map (fun v => if isnan v then FVal.fin 0 else v))

/-- Padding mask of one query label vector. -/
def qMask (y : List ℚ) : List Bool :=
  y.map (fun v => decide (v = PADDED_Y_VALUE))

/-- Scores the per-query evaluator obtains for one query: `model.score`
applied to the one-example batch of the NaN-sanitized features, the mask,
and indices None. -/
def predOf (score : ScoreFn) (q : Query) : List (List ℚ) :=
  score [sanitizeQ q.x] [qMask q.y] none

/-- Per-query column of a metric at cutoff position `j`: the `j`-th column
of the metric matrix for that single query, as appended by `compute_test`. -/
def colAt (metricF : MetricFn) (score : ScoreFn) (n : String) (ats : List ℕ) (j : ℕ)
    (q : Query) : List ℚ :=
  (metricF n ats (predOf score q) [q.y]).map (fun r => r.getD j 0)

/-- Mutable state threaded through the per-query loop of `compute_test`:
the lines of the full prediction dump, the per-cutoff files, the in-memory
`all_results_metric` dictionary, and (instrumentation) the tensors passed
to `model.score`. -/
structure CTState where
  predLines : List String
  files : List (String × List String)
  allResults : List (String × List (List ℚ))
  scoredInputs : List (List (List FVal))
deriving DecidableEq

/-- Body of the innermost loop of `compute_test` (lines 122-127): for one
`(key, column)` pair, append the column values to the per-cutoff file and
to `all_results_metric[key]`. -/
def ctKV (epoch : ℕ) (st : CTState) (kc : String × List ℚ) : CTState :=
  { st with
    files := fappend st.files (mfile epoch kc.1) (kc.2.map (fun v => toString v))
    allResults := aupdate st.allResults kc.1 (fun xs => xs ++ [kc.2]) }

/-- Body of the per-metric loop inside the per-query loop of `compute_test`
(lines 112-127): metrics whose name does not contain "ndcg" are skipped;
for the others the metric matrix of this query is computed and its
transposed columns are zipped with the keys. -/
def ctEntry (score : ScoreFn) (metricF : MetricFn) (epoch : ℕ) (q : Query)
    (st : CTState) (p : String × List ℕ) : CTState :=
  if containsNdcg p.1 then
    (List.zip (keysOf p.1 p.2) (columnsOf (metricF p.1 p.2 (predOf score q) [q.y]))).foldl
      (ctKV epoch) st
  else st

/-- Body of the per-query loop of `compute_test` (lines 96-127): sanitize
the query tensor, score it, write every raw score to the prediction dump,
then run the per-metric loop. -/
def processQuery (spec : List (String × List ℕ)) (score : ScoreFn) (metricF : MetricFn)
    (epoch : ℕ) (st : CTState) (q : Query) : CTState :=
  let st1 : CTState :=
    { st with
      predLines := st.predLines ++ ((predOf score q).flatten).map (fun v => toString v)
      scoredInputs := st.scoredInputs ++ [sanitizeQ q.x] }
  spec.foldl (ctEntry score metricF epoch q) st1

/-- The set-up loop of `compute_test` (lines 88-94): for every configured
key, `all_results_metric.setdefault(m, [])` and truncate the per-cutoff
file. -/
def ctInit (spec : List (String × List ℕ)) (epoch : ℕ) :
    List (String × List (List ℚ)) × List (String × List String) :=
  (metricKeys spec).foldl
    (fun st m => (setdefaultR st.1 m, fwrite st.2 (mfile epoch m))) ([], [])

/-- One step of the final loop of `compute_test`. -/
def ctDictStep (dd : List (String × ℚ)) (p : String × List (List ℚ)) : List (String × ℚ) :=
  if containsNdcg p.1 then setdefaultD dd p.1 (npMeanFlat p.2) else dd

/-- The final loop of `compute_test` (lines 129-131): keep only the keys
containing "ndcg" and set each to the flattened mean of its collected
per-query arrays. -/
def ctDict (ar : List (String × List (List ℚ))) : List (String × ℚ) :=
  ar.foldl ctDictStep []

/-- Observable outcome of `compute_test` (lines 80-135): the prediction
dump lines, the per-cutoff files, the returned dictionary, and
(instrumentation) the tensors passed to `model.score`. -/
structure ComputeTestOut where
  predLines : List String
  files : List (String × List String)
  dict : List (String × ℚ)
  scoredInputs : List (List (List FVal))
deriving DecidableEq

/-- Embedding of `compute_test`: initialize the per-key state, fold the
per-query loop over the dataset in query order, then build the returned
dictionary. -/
def compute_test (spec : List (String × List ℕ)) (score : ScoreFn) (metricF : MetricFn)
    (queries : List Query) (epoch : ℕ) : ComputeTestOut :=
  let init := ctInit spec epoch
  let stF := queries.foldl (processQuery spec score metricF epoch)
    { predLines := [], files := init.2, allResults := init.1, scoredInputs := [] }
  { predLines := stF.predLines, files := stF.files, dict := ctDict stF.allResults
    scoredInputs := stF.scoredInputs }

/-! Concrete instances used by counterexamples and witnesses. -/

/-- A trivial model collaborator for concrete runs. -/
def demoModel : List (List (List FVal)) → List (List Bool) → List (List ℕ) → List (List ℚ) :=
  fun _ _ _ => []

/-- A loss collaborator reading off the first label of the batch, so that
per-batch losses can be chosen freely through `yb`. -/
def demoLoss : List (List ℚ) → List (List ℚ) → ℚ :=
  fun _ yb => (yb.headD []).headD 0

/-- A training batch of size 3 whose `demoLoss` value is 2. -/
def demoBatch1 : Batch :=
  { xb := [[[FVal.fin 0]], [[FVal.fin 0]], [[FVal.fin 0]]], yb := [[2], [2], [2]]
    indices := [[0]] }

/-- A training batch of size 1 whose `demoLoss` value is 6. -/
def demoBatch2 : Batch :=
  { xb := [[[FVal.fin 0]]], yb := [[6]], indices := [[0]] }

/-- A configuration with a plateau scheduler whose target validation
metric will be missing from the computed metrics. -/
def cfgPlateau : FitConfig :=
  { epochs := 1, metrics := [("ndcg", [5])], val_metric := "ndcg_5"
    gradient_clipping_norm := none, early_stopping_patience := none
    schedulerPresent := true, schedulerIsPlateau := true }

/-- The same configuration with no scheduler supplied. -/
def cfgNoSched : FitConfig :=
  { epochs := 1, metrics := [("ndcg", [5])], val_metric := "ndcg_5"
    gradient_clipping_norm := none, early_stopping_patience := none
    schedulerPresent := false, schedulerIsPlateau := false }

/-- Epoch data whose validation metrics do not contain the target key. -/
def dMiss : EpochData :=
  { trainBatches := [(1, 1)], valBatches := [(1, 1)], trainMetrics := [], valMetrics := [] }

/-- Constant epoch environment built from `dMiss`. -/
def dataMiss : ℕ → EpochData := fun _ => dMiss

/-- An early-stop state used in concrete epoch runs. -/
def esW : EarlyStop := { patience := none, best_value := none, best_epoch := 0 }

/-- Expected epoch outcome of `runEpoch cfgNoSched dMiss esW 0`. -/
def c2okOut : EpochOutcome :=
  { train_loss := weightedLoss dMiss.trainBatches, val_loss := weightedLoss dMiss.valBatches
    train_metrics := dMiss.trainMetrics, val_metrics := dMiss.valMetrics
    es := esW, stop := esW.stop_training 0 }

/-- A configuration under which `fit` completes one epoch normally. -/
def cfg3 : FitConfig :=
  { epochs := 1, metrics := [("ndcg", [5])], val_metric := "ndcg_5"
    gradient_clipping_norm := none, early_stopping_patience := none
    schedulerPresent := false, schedulerIsPlateau := false }

/-- Epoch data under which `fit` completes one epoch normally. -/
def d3 : EpochData :=
  { trainBatches := [(2, 3), (6, 1)], valBatches := [(1, 1)]
    trainMetrics := [("ndcg_5", 1)], valMetrics := [("ndcg_5", 2)] }

/-- Constant epoch environment built from `d3`. -/
def data3 : ℕ → EpochData := fun _ => d3

/-- The dictionary `fit cfg3 7 data3` returns. -/
def ret3 : List (String × RVal) :=
  [("epochs", RVal.nat 0), ("train_metrics", RVal.dict [("ndcg_5", 1)]),
   ("val_metrics", RVal.dict [("ndcg_5", 2)]), ("num_params", RVal.nat 7)]

/-- Epoch data with an empty training split. -/
def dEmptyTrain : EpochData :=
  { trainBatches := [], valBatches := [(1, 1)], trainMetrics := [], valMetrics := [] }

/-- Constant epoch environment built from `dEmptyTrain`. -/
def dataEmptyTrain : ℕ → EpochData := fun _ => dEmptyTrain

/-- Epoch data with an empty validation split. -/
def dEmptyVal : EpochData :=
  { trainBatches := [(1, 1)], valBatches := [], trainMetrics := [], valMetrics := [] }

/-- Constant epoch environment built from `dEmptyVal`. -/
def dataEmptyVal : ℕ → EpochData := fun _ => dEmptyVal

/-- A configuration with patience 1 over 5 epochs, for an early-stopped
run. -/
def cfg8 : FitConfig :=
  { epochs := 5, metrics := [("ndcg", [5])], val_metric := "m"
    gradient_clipping_norm := none, early_stopping_patience := some 1
    schedulerPresent := false, schedulerIsPlateau := false }

/-- Epoch data whose target metric value is constant, so the best epoch
freezes at 0 and patience 1 fires at epoch 1. -/
def d8 : EpochData :=
  { trainBatches := [(1, 1)], valBatches := [(1, 1)], trainMetrics := []
    valMetrics := [("m", 1)] }

/-- Constant epoch environment built from `d8`. -/
def data8 : ℕ → EpochData := fun _ => d8

/-- The early-stop state after epoch 0 of the `cfg8` run. -/
def es8 : EarlyStop := { patience := some 1, best_value := some 1, best_epoch := 0 }

/-- The loop locals after epoch 0 of the `cfg8` run. -/
def last8a : LastEpoch :=
  { epoch := 0, train_loss := weightedLoss d8.trainBatches, val_loss := weightedLoss d8.valBatches
    train_metrics := d8.trainMetrics, val_metrics := d8.valMetrics }

/-- The epoch outcome of epoch 1 of the `cfg8` run, where early stopping
fires. -/
def o8 : EpochOutcome :=
  { train_loss := weightedLoss d8.trainBatches, val_loss := weightedLoss d8.valBatches
    train_metrics := d8.trainMetrics, val_metrics := d8.valMetrics
    es := es8, stop := true }

/-- The loop locals after the early exit at epoch 1 of the `cfg8` run. -/
def last8b : LastEpoch :=
  { epoch := 1, train_loss := weightedLoss d8.trainBatches, val_loss := weightedLoss d8.valBatches
    train_metrics := d8.trainMetrics, val_metrics := d8.valMetrics }

/-- Metric spec with one exportable (ndcg) and one non-exportable metric. -/
def specX : List (String × List ℕ) := [("ndcg", [1]), ("mrr", [2])]

/-- Scoring collaborator giving every example the score row [1]. -/
def scoreX : ScoreFn := fun xs _ _ => xs.map (fun _ => [1])

/-- Metric collaborator returning, for each example, the row of cutoff
values cast to rationals. -/
def metricX : MetricFn := fun _ ats scores _ => scores.map (fun _ => ats.map (fun a => (a : ℚ)))

/-- Two queries, one with an infinite feature, one with a NaN feature. -/
def queriesX : List Query :=
  [{ x := [[FVal.posInf]], y := [1] }, { x := [[FVal.nan]], y := [2] }]

/-- The same two queries presented as one batch of the batched path. -/
def dlX : List TBatch :=
  [{ xb := [[[FVal.posInf]], [[FVal.nan]]], yb := [[1], [2]], indices := [[0], [0]] }]

/-- The per-query metric row of every query in the witness runs. -/
def rowX : Query → List ℚ := fun _ => [1]

/-! Theorems settling the claims. -/

/-- C1: the epoch loss `fit` computes from the `loss_batch` results
`(l1, n1) .. (lk, nk)` is `sum(li * ni) / sum(ni)`, the size-weighted
mean; in particular two batches of sizes 3 and 1 with losses 2 and 6 give
epoch loss 3, while the naive per-batch average would give 4. -/
theorem C1_fit_train_loss_is_size_weighted_mean :
    (∀ model loss_func gcn (batches : List Batch),
      train_epoch_loss model loss_func gcn batches =
        ((batches.map (fun b =>
            (loss_batch model loss_func b.xb b.yb b.indices gcn true).loss *
              ((loss_batch model loss_func b.xb b.yb b.indices gcn true).size : ℚ))).sum) /
        ((batches.map (fun b =>
            ((loss_batch model loss_func b.xb b.yb b.indices gcn true).size : ℚ))).sum))
    ∧ train_epoch_loss demoModel demoLoss none [demoBatch1, demoBatch2] = 3
    ∧ naive_loss_mean demoModel demoLoss none [demoBatch1, demoBatch2] = 4 := by
  refine ⟨?_, ?_, ?_⟩
  · intro model loss_func gcn batches
    simp only [train_epoch_loss, weightedLoss, List.map_map]
    rfl
  · norm_num [train_epoch_loss, weightedLoss, loss_batch, demoModel, demoLoss, demoBatch1,
      demoBatch2]
  · norm_num [naive_loss_mean, loss_batch, demoModel, demoLoss, demoBatch1, demoBatch2]

/-- C2 counterexample: with a plateau scheduler and the target validation
metric absent from the computed val_metrics, the epoch does not complete:
the scheduler step raises KeyError, so the loop crashes before saving or
closing anything. -/
theorem C2_counterexample_plateau_scheduler_crashes :
    fit cfgPlateau 3 dataMiss =
      { events := [FitEvent.epochStarted 0], saved := false, closed := false
        outcome := Except.error (PyError.keyError "ndcg_5") } := by
  decide

/-- C2 amended: when the target validation metric is absent, the early
stop decision (spec-modelled `EarlyStop.step` receiving None) treats it as
no improvement and the epoch completes, but only when no plateau scheduler
is in use; with a plateau scheduler the epoch raises KeyError. -/
theorem C2_missing_val_metric_amended :
    ∀ (cfg : FitConfig) (d : EpochData) (es : EarlyStop) (epoch : ℕ),
      d.trainBatches.isEmpty = false → d.valBatches.isEmpty = false →
      alookup d.valMetrics cfg.val_metric = none →
      (((cfg.schedulerPresent && cfg.schedulerIsPlateau) = false →
        runEpoch cfg d es epoch = Except.ok
          { train_loss := weightedLoss d.trainBatches, val_loss := weightedLoss d.valBatches
            train_metrics := d.trainMetrics, val_metrics := d.valMetrics
            es := es, stop := es.stop_training epoch })
      ∧ ((cfg.schedulerPresent && cfg.schedulerIsPlateau) = true →
        runEpoch cfg d es epoch = Except.error (PyError.keyError cfg.val_metric))) := by
  intro cfg d es epoch ht hv hcur
  constructor
  · intro hsch
    simp [runEpoch, ht, hv, hcur, hsch, EarlyStop.step]
  · intro hsch
    simp [runEpoch, ht, hv, hcur, hsch]

/-- C2 witness: concrete instances of both branches of the amended
statement. -/
theorem C2_witness :
    runEpoch cfgNoSched dMiss esW 0 = Except.ok c2okOut
    ∧ runEpoch cfgPlateau dMiss esW 0 = Except.error (PyError.keyError "ndcg_5") :=
  ⟨(C2_missing_val_metric_amended cfgNoSched dMiss esW 0 rfl rfl rfl).1 rfl,
   (C2_missing_val_metric_amended cfgPlateau dMiss esW 0 rfl rfl rfl).2 rfl⟩

/-- C3 counterexample: a completed `fit` run returns a dictionary whose
keys are exactly epochs, train_metrics, val_metrics and num_params; the
train_loss and val_loss fields the claim lists are absent. -/
theorem C3_counterexample_return_lacks_losses :
    (fit cfg3 7 data3).outcome = Except.ok ret3
    ∧ ret3.map Prod.fst = ["epochs", "train_metrics", "val_metrics", "num_params"]
    ∧ hasKey ret3 "train_loss" = false
    ∧ hasKey ret3 "val_loss" = false := by
  refine ⟨by decide, by decide, by decide, by decide⟩

/-- C3 amended: every dictionary returned by `fit` has exactly the keys
epochs, train_metrics, val_metrics and num_params, in that order. -/
theorem C3_return_keys_amended :
    ∀ (cfg : FitConfig) (num_params : ℕ) (data : ℕ → EpochData) (r : List (String × RVal)),
      (fit cfg num_params data).outcome = Except.ok r →
      r.map Prod.fst = ["epochs", "train_metrics", "val_metrics", "num_params"] := by
  intro cfg np data r h
  unfold fit at h
  rcases hfg : fitGo cfg data cfg.epochs 0
      { patience := cfg.early_stopping_patience, best_value := none, best_epoch := 0 } none []
    with ⟨evs, exc⟩
  rw [hfg] at h
  match exc with
  | Except.error e => simp [fitAssemble] at h
  | Except.ok none => simp [fitAssemble] at h
  | Except.ok (some l) =>
    simp only [fitAssemble, Except.ok.injEq] at h
    subst h
    simp [fitReturn]

/-- C3 witness: the amended key list read off a concrete completed run. -/
theorem C3_witness :
    ret3.map Prod.fst = ["epochs", "train_metrics", "val_metrics", "num_params"] :=
  C3_return_keys_amended cfg3 7 data3 ret3 (by decide)

/-- C4 counterexample: with an optimizer supplied and configured norm -1
(a non-positive value), `loss_batch` still calls `clip_grad_norm_` (with
that negative norm), because the source tests Python truthiness rather
than positivity. -/
theorem C4_counterexample_negative_norm_clips :
    (loss_batch demoModel demoLoss [[[FVal.fin 0]]] [[0]] [[0]] (some (-1)) true).clippedTo =
      some (-1)
    ∧ ((-1 : ℚ) < 0) := by
  refine ⟨by decide, by norm_num⟩

/-- C4 amended: with an optimizer supplied, the gradient norm is clipped
iff the configured norm is set and nonzero (Python truthiness): zero or
unset disables clipping, while every nonzero value, negative ones
included, is passed to the clipping call. -/
theorem C4_clipping_condition_amended :
    ∀ model loss_func xb yb indices (gcn : Option ℚ) (opt : Bool),
      ((loss_batch model loss_func xb yb indices gcn opt).clippedTo ≠ none ↔
        (opt = true ∧ ∃ c, gcn = some c ∧ c ≠ 0))
      ∧ ((loss_batch model loss_func xb yb indices gcn opt).clippedTo = none ∨
          (loss_batch model loss_func xb yb indices gcn opt).clippedTo = gcn) := by
  intro model loss_func xb yb indices gcn opt
  cases opt with
  | false => simp [loss_batch]
  | true =>
    cases gcn with
    | none => simp [loss_batch, pyTruthy]
    | some c =>
      by_cases hc : c = 0
      · subst hc
        simp [loss_batch, pyTruthy]
      · simp [loss_batch, pyTruthy, hc]

/-- C7 counterexample: with an empty training split, `fit` does raise an
error, but only after epoch 0 has started (the event list shows the loop
was entered): nothing validates emptiness before training begins. -/
theorem C7_counterexample_empty_split_error_is_mid_epoch :
    fit cfgNoSched 0 dataEmptyTrain =
      { events := [FitEvent.epochStarted 0], saved := false, closed := false
        outcome := Except.error PyError.valueError } := by
  decide

/-- C7 amended: `fit` performs no up-front emptiness validation; with an
empty training or validation split the failure (the ValueError of
unpacking an empty zip) surfaces during the first epoch, after the epoch
has started, and neither the checkpoint nor the writer close happens. -/
theorem C7_empty_split_amended :
    ∀ (cfg : FitConfig) (num_params : ℕ) (data : ℕ → EpochData), 1 ≤ cfg.epochs →
      (((data 0).trainBatches = [] →
        fit cfg num_params data =
          { events := [FitEvent.epochStarted 0], saved := false, closed := false
            outcome := Except.error PyError.valueError })
      ∧ ((data 0).valBatches = [] →
        fit cfg num_params data =
          { events := [FitEvent.epochStarted 0], saved := false, closed := false
            outcome := Except.error PyError.valueError })) := by
  intro cfg np data h
  obtain ⟨n, hn⟩ : ∃ n, cfg.epochs = n + 1 := ⟨cfg.epochs - 1, by omega⟩
  constructor
  · intro hemp
    simp [fit, hn, fitGo, runEpoch, hemp, fitAssemble]
  · intro hemp
    by_cases htr : (data 0).trainBatches.isEmpty
    · simp [fit, hn, fitGo, runEpoch, htr, fitAssemble]
    · simp only [Bool.not_eq_true] at htr
      simp [fit, hn, fitGo, runEpoch, htr, hemp, fitAssemble]

/-- C7 witness: the two amended branches at concrete runs. -/
theorem C7_witness :
    fit cfgNoSched 0 dataEmptyTrain =
      { events := [FitEvent.epochStarted 0], saved := false, closed := false
        outcome := Except.error PyError.valueError }
    ∧ fit cfgNoSched 0 dataEmptyVal =
      { events := [FitEvent.epochStarted 0], saved := false, closed := false
        outcome := Except.error PyError.valueError } :=
  ⟨(C7_empty_split_amended cfgNoSched 0 dataEmptyTrain (by decide)).1 rfl,
   (C7_empty_split_amended cfgNoSched 0 dataEmptyVal (by decide)).2 rfl⟩

/-- C8: when `stop_training` fires at an epoch, the loop returns at once,
no matter how many epochs remain, keeping that epoch as the last computed
one; and whenever the loop exits with computed locals (early exit
included), `fit` saves the model, closes the writers, and returns the
dictionary built from those locals. -/
theorem C8_early_stop_breaks_and_finalizes :
    (∀ (cfg : FitConfig) (data : ℕ → EpochData) (n epoch : ℕ) (es : EarlyStop)
        (last : Option LastEpoch) (evs : List FitEvent) (o : EpochOutcome),
      runEpoch cfg (data epoch) es epoch = Except.ok o → o.stop = true →
      fitGo cfg data (n + 1) epoch es last evs =
        (evs ++ [FitEvent.epochStarted epoch],
          Except.ok (some { epoch := epoch, train_loss := o.train_loss, val_loss := o.val_loss
                            train_metrics := o.train_metrics, val_metrics := o.val_metrics })))
    ∧ (∀ (cfg : FitConfig) (num_params : ℕ) (data : ℕ → EpochData) (evs : List FitEvent)
        (l : LastEpoch),
      fitGo cfg data cfg.epochs 0
          { patience := cfg.early_stopping_patience, best_value := none, best_epoch := 0 } none [] =
        (evs, Except.ok (some l)) →
      fit cfg num_params data =
        { events := evs, saved := true, closed := true
          outcome := Except.ok (fitReturn num_params l) }) := by
  constructor
  · intro cfg data n epoch es last evs o hrun hstop
    simp only [fitGo]
    rw [hrun]
    simp [hstop]
  · intro cfg np data evs l h
    unfold fit
    rw [h]
    rfl

/-- C8 witness: the `cfg8` run improves at epoch 0 and stops at epoch 1 of
5; the break returns immediately and `fit` still saves, closes and returns
the epoch 1 locals. -/
theorem C8_witness :
    fitGo cfg8 data8 4 1 es8 (some last8a) [FitEvent.epochStarted 0] =
      ([FitEvent.epochStarted 0, FitEvent.epochStarted 1], Except.ok (some last8b))
    ∧ fit cfg8 11 data8 =
      { events := [FitEvent.epochStarted 0, FitEvent.epochStarted 1], saved := true, closed := true
        outcome := Except.ok (fitReturn 11 last8b) } :=
  ⟨C8_early_stop_breaks_and_finalizes.1 cfg8 data8 3 1 es8 (some last8a)
      [FitEvent.epochStarted 0] o8 rfl rfl,
   C8_early_stop_breaks_and_finalizes.2 cfg8 11 data8
      [FitEvent.epochStarted 0, FitEvent.epochStarted 1] last8b rfl⟩

/-- C9: calling `fit` with epochs = 0 skips the loop entirely, still
writes the model checkpoint and closes the writers, and then fails with a
NameError while building the return value, because the loop locals are
unbound; so it never returns an EpochResult. -/
theorem C9_zero_epochs_name_error :
    ∀ (cfg : FitConfig) (num_params : ℕ) (data : ℕ → EpochData), cfg.epochs = 0 →
      fit cfg num_params data =
        { events := [], saved := true, closed := true
          outcome := Except.error (PyError.nameError "epoch") } := by
  intro cfg np data h
  simp [fit, h, fitGo, fitAssemble]

/-- C9 witness: the zero-epoch run at a concrete configuration. -/
theorem C9_witness :
    fit { cfg3 with epochs := 0 } 7 data3 =
      { events := [], saved := true, closed := true
        outcome := Except.error (PyError.nameError "epoch") } :=
  C9_zero_epochs_name_error { cfg3 with epochs := 0 } 7 data3 rfl

/-! Helper lemmas about the association-list dictionary model. -/

theorem alookup_nil {α : Type} (k : String) : alookup ([] : List (String × α)) k = none := rfl

theorem alookup_cons_self {α : Type} (p : String × α) (rest : List (String × α)) (k : String)
    (h : p.1 = k) : alookup (p :: rest) k = some p.2 := by
  simp [alookup, List.find?_cons_of_pos, h]

theorem alookup_cons_ne {α : Type} (p : String × α) (rest : List (String × α)) (k : String)
    (h : p.1 ≠ k) : alookup (p :: rest) k = alookup rest k := by
  simp [alookup, List.find?_cons_of_neg, h]

theorem alookup_eq_none_iff {α : Type} (d : List (String × α)) (k : String) :
    alookup d k = none ↔ hasKey d k = false := by
  induction d with
  | nil => simp [alookup, hasKey]
  | cons p rest ih =>
    by_cases h : p.1 = k
    · simp [alookup_cons_self p rest k h, hasKey, h]
    · simp [alookup_cons_ne p rest k h, hasKey, h] at ih ⊢
      simpa [hasKey] using ih

theorem alookup_append_left {α : Type} (d1 d2 : List (String × α)) (k : String) (v : α)
    (h : alookup d1 k = some v) : alookup (d1 ++ d2) k = some v := by
  induction d1 with
  | nil => simp [alookup] at h
  | cons p rest ih =>
    by_cases hp : p.1 = k
    · rw [alookup_cons_self p rest k hp] at h
      simpa [alookup_cons_self p (rest ++ d2) k hp] using h
    · rw [alookup_cons_ne p rest k hp] at h
      rw [List.cons_append, alookup_cons_ne p (rest ++ d2) k hp]
      exact ih h

theorem alookup_append_right {α : Type} (d1 d2 : List (String × α)) (k : String)
    (h : alookup d1 k = none) : alookup (d1 ++ d2) k = alookup d2 k := by
  induction d1 with
  | nil => simp
  | cons p rest ih =>
    by_cases hp : p.1 = k
    · rw [alookup_cons_self p rest k hp] at h
      exact absurd h (by simp)
    · rw [alookup_cons_ne p rest k hp] at h
      rw [List.cons_append, alookup_cons_ne p (rest ++ d2) k hp]
      exact ih h

theorem alookup_map_pair {α : Type} (ks : List String) (k : String) (init : α)
    (h : k ∈ ks) : alookup (ks.map (fun m => (m, init))) k = some init := by
  induction ks with
  | nil => simp at h
  | cons m rest ih =>
    by_cases hm : m = k
    · simp [List.map_cons, alookup_cons_self (m, init) _ k hm]
    · rcases List.mem_cons.mp h with h1 | h2
      · exact absurd h1.symm hm
      · simpa [List.map_cons, alookup_cons_ne (m, init) _ k hm] using ih h2

theorem alookup_aupdate_self {α : Type} (d : List (String × α)) (k : String) (f : α → α) :
    alookup (aupdate d k f) k = (alookup d k).map f := by
  induction d with
  | nil => rfl
  | cons p rest ih =>
    by_cases hp : p.1 = k
    · simp [aupdate, hp, alookup_cons_self (k, f p.2) rest k rfl, alookup_cons_self p rest k hp]
    · simp only [aupdate, if_neg hp]
      rw [alookup_cons_ne p _ k hp, alookup_cons_ne p rest k hp]
      exact ih

theorem alookup_aupdate_ne {α : Type} (d : List (String × α)) (k k2 : String) (f : α → α)
    (h : k2 ≠ k) : alookup (aupdate d k2 f) k = alookup d k := by
  induction d with
  | nil => rfl
  | cons p rest ih =>
    by_cases hp : p.1 = k2
    · have hpk : p.1 ≠ k := by rw [hp]; exact h
      simp only [aupdate, if_pos hp]
      rw [alookup_cons_ne (p.1, f p.2) rest k hpk, alookup_cons_ne p rest k hpk]
    · simp only [aupdate, if_neg hp]
      by_cases hk : p.1 = k
      · rw [alookup_cons_self p _ k hk, alookup_cons_self p rest k hk]
      · rw [alookup_cons_ne p _ k hk, alookup_cons_ne p rest k hk]
        exact ih

theorem aupdate_keys {α : Type} (d : List (String × α)) (k : String) (f : α → α) :
    (aupdate d k f).map Prod.fst = d.map Prod.fst := by
  induction d with
  | nil => rfl
  | cons p rest ih =>
    by_cases hp : p.1 = k
    · simp [aupdate, hp]
    · simp [aupdate, hp, ih]

theorem alookup_mem {α : Type} (d : List (String × α)) (k : String) (v : α)
    (h : alookup d k = some v) : (k, v) ∈ d := by
  unfold alookup at h
  rcases Option.map_eq_some'.mp h with ⟨p, hp, hv⟩
  have hmem := List.mem_of_find?_eq_some hp
  have hkey := List.find?_some hp
  have h1 : p.1 = k := by simpa using hkey
  have : p = (k, v) := by
    rcases p with ⟨a, b⟩
    simp only at h1 hv
    rw [h1, hv]
  rwa [this] at hmem

theorem hasKey_append {α : Type} (d1 d2 : List (String × α)) (k : String) :
    hasKey (d1 ++ d2) k = (hasKey d1 k || hasKey d2 k) := by
  simp [hasKey, List.any_append]

theorem alookup_fappend_self (fs : List (String × List String)) (k : String) (ls : List String) :
    alookup (fappend fs k ls) k = some (((alookup fs k).getD []) ++ ls) := by
  unfold fappend
  by_cases h : hasKey fs k = true
  · rw [if_pos h, alookup_aupdate_self]
    rcases ho : alookup fs k with _ | v
    · rw [alookup_eq_none_iff] at ho
      rw [ho] at h
      simp at h
    · simp
  · rw [if_neg h]
    have hn : alookup fs k = none := (alookup_eq_none_iff fs k).mpr (by simpa using h)
    rw [alookup_append_right fs _ k hn, hn]
    simp [alookup_cons_self (k, ls) [] k rfl]

theorem alookup_fappend_ne (fs : List (String × List String)) (k k2 : String) (ls : List String)
    (h : k2 ≠ k) : alookup (fappend fs k2 ls) k = alookup fs k := by
  unfold fappend
  by_cases hh : hasKey fs k2 = true
  · rw [if_pos hh]
    exact alookup_aupdate_ne fs k k2 _ h
  · rw [if_neg hh]
    rcases ho : alookup fs k with _ | v
    · rw [alookup_append_right fs _ k ho, alookup_cons_ne (k2, ls) [] k h]
      simp [alookup, ho]
    · rw [alookup_append_left fs _ k v ho]

theorem alookup_dictUpdate_self (d : List (String × ℚ)) (kv : String × ℚ) :
    alookup (dictUpdate d kv) kv.1 = some kv.2 := by
  unfold dictUpdate
  by_cases h : hasKey d kv.1 = true
  · rw [if_pos h, alookup_aupdate_self]
    rcases ho : alookup d kv.1 with _ | v
    · rw [alookup_eq_none_iff] at ho
      rw [ho] at h
      simp at h
    · simp
  · rw [if_neg h]
    have hn : alookup d kv.1 = none := (alookup_eq_none_iff d kv.1).mpr (by simpa using h)
    rw [alookup_append_right d _ kv.1 hn]
    exact alookup_cons_self kv [] kv.1 rfl

theorem alookup_dictUpdate_ne (d : List (String × ℚ)) (kv : String × ℚ) (k : String)
    (h : kv.1 ≠ k) : alookup (dictUpdate d kv) k = alookup d k := by
  unfold dictUpdate
  by_cases hh : hasKey d kv.1 = true
  · rw [if_pos hh]
    exact alookup_aupdate_ne d k kv.1 _ h
  · rw [if_neg hh]
    rcases ho : alookup d k with _ | v
    · rw [alookup_append_right d _ k ho, alookup_cons_ne kv [] k h, alookup_nil]
    · rw [alookup_append_left d _ k v ho]

theorem alookup_setdefaultD_of_some (d : List (String × ℚ)) (m : String) (v : ℚ) (k : String)
    (w : ℚ) (h : alookup d k = some w) : alookup (setdefaultD d m v) k = some w := by
  unfold setdefaultD
  by_cases hh : hasKey d m = true
  · rw [if_pos hh]
    exact h
  · rw [if_neg hh]
    exact alookup_append_left d [(m, v)] k w h

theorem alookup_setdefaultD_ne (d : List (String × ℚ)) (m : String) (v : ℚ) (k : String)
    (h : m ≠ k) : alookup (setdefaultD d m v) k = alookup d k := by
  unfold setdefaultD
  by_cases hh : hasKey d m = true
  · rw [if_pos hh]
  · rw [if_neg hh]
    rcases ho : alookup d k with _ | w
    · rw [alookup_append_right d _ k ho, alookup_cons_ne (m, v) [] k h, alookup_nil]
    · rw [alookup_append_left d _ k w ho]

theorem alookup_setdefaultD_self_none (d : List (String × ℚ)) (m : String) (v : ℚ)
    (h : alookup d m = none) : alookup (setdefaultD d m v) m = some v := by
  unfold setdefaultD
  rw [if_neg (by rw [alookup_eq_none_iff] at h; simp [h]), alookup_append_right d _ m h]
  exact alookup_cons_self (m, v) [] m rfl

theorem ctInit_go (epoch : ℕ) (ks : List String) :
    ∀ (a : List (String × List (List ℚ))) (b : List (String × List String)),
      (∀ m ∈ ks, hasKey a m = false) → (∀ m ∈ ks, hasKey b (mfile epoch m) = false) →
      ks.Nodup → (ks.map (mfile epoch)).Nodup →
      ks.foldl (fun st m => (setdefaultR st.1 m, fwrite st.2 (mfile epoch m))) (a, b) =
        (a ++ ks.map (fun m => (m, [])), b ++ ks.map (fun m => (mfile epoch m, []))) := by
  induction ks with
  | nil => intro a b _ _ _ _; simp
  | cons m rest ih =>
    intro a b ha hb hnd hndf
    have ham : hasKey a m = false := ha m (List.mem_cons_self m rest)
    have hbm : hasKey b (mfile epoch m) = false := hb m (List.mem_cons_self m rest)
    have hstep :
        (setdefaultR a m, fwrite b (mfile epoch m)) = (a ++ [(m, [])], b ++ [(mfile epoch m, [])]) := by
      simp [setdefaultR, fwrite, ham, hbm]
    rw [List.foldl_cons, hstep]
    rw [List.map_cons] at hndf
    have hmrest : m ∉ rest := (List.nodup_cons.mp hnd).1
    have hfrest : mfile epoch m ∉ rest.map (mfile epoch) := (List.nodup_cons.mp hndf).1
    have ha2 : ∀ m2 ∈ rest, hasKey (a ++ [(m, [])]) m2 = false := by
      intro m2 hm2
      rw [hasKey_append]
      have h1 : hasKey a m2 = false := ha m2 (List.mem_cons_of_mem m hm2)
      have hne : m ≠ m2 := fun he => hmrest (he ▸ hm2)
      rw [h1]
      simp [hasKey, hne]
    have hb2 : ∀ m2 ∈ rest, hasKey (b ++ [(mfile epoch m, [])]) (mfile epoch m2) = false := by
      intro m2 hm2
      rw [hasKey_append]
      have h1 : hasKey b (mfile epoch m2) = false := hb m2 (List.mem_cons_of_mem m hm2)
      have hne : mfile epoch m ≠ mfile epoch m2 := by
        intro he
        exact hfrest (he ▸ List.mem_map_of_mem (mfile epoch) hm2)
      rw [h1]
      simp [hasKey, hne]
    rw [ih (a ++ [(m, [])]) (b ++ [(mfile epoch m, [])]) ha2 hb2 (List.nodup_cons.mp hnd).2
      (List.nodup_cons.mp hndf).2]
    simp

theorem ctInit_build (spec : List (String × List ℕ)) (epoch : ℕ)
    (hND : (metricKeys spec).Nodup) (hNDf : ((metricKeys spec).map (mfile epoch)).Nodup) :
    ctInit spec epoch =
      ((metricKeys spec).map (fun m => (m, [])),
       (metricKeys spec).map (fun m => (mfile epoch m, []))) := by
  unfold ctInit
  rw [ctInit_go epoch (metricKeys spec) [] [] (by intro m _; rfl) (by intro m _; rfl) hND hNDf]
  simp

theorem ctDict_go_preserve (ar : List (String × List (List ℚ))) (k : String) :
    ∀ (dd : List (String × ℚ)), (∀ p ∈ ar, p.1 ≠ k) →
      alookup (ar.foldl ctDictStep dd) k = alookup dd k := by
  induction ar with
  | nil => intro dd _; rfl
  | cons p rest ih =>
    intro dd h
    have hp : p.1 ≠ k := h p (List.mem_cons_self p rest)
    have hr : ∀ p2 ∈ rest, p2.1 ≠ k := fun p2 hm => h p2 (List.mem_cons_of_mem p hm)
    rw [List.foldl_cons, ih _ hr]
    unfold ctDictStep
    by_cases hc : containsNdcg p.1 = true
    · rw [if_pos hc]
      exact alookup_setdefaultD_ne dd p.1 _ k hp
    · rw [if_neg hc]

theorem ctDict_go_found (ar : List (String × List (List ℚ))) (k : String) (vs : List (List ℚ)) :
    ∀ (dd : List (String × ℚ)), containsNdcg k = true → (ar.map Prod.fst).Nodup →
      (k, vs) ∈ ar → alookup dd k = none →
      alookup (ar.foldl ctDictStep dd) k = some (npMeanFlat vs) := by
  induction ar with
  | nil => intro dd _ _ hmem _; simp at hmem
  | cons p rest ih =>
    intro dd hnd hNDk hmem hdd
    rw [List.map_cons] at hNDk
    have hnodup := List.nodup_cons.mp hNDk
    rcases List.mem_cons.mp hmem with heq | hrest
    · subst heq
      rw [List.foldl_cons]
      have hstep : ctDictStep dd (k, vs) = setdefaultD dd k (npMeanFlat vs) := by
        simp [ctDictStep, hnd]
      rw [hstep]
      have hks : ∀ p2 ∈ rest, p2.1 ≠ k := by
        intro p2 hm2 he
        exact hnodup.1 (by simpa [he] using List.mem_map_of_mem Prod.fst hm2)
      rw [ctDict_go_preserve rest k _ hks]
      exact alookup_setdefaultD_self_none dd k (npMeanFlat vs) hdd
    · have hpk : p.1 ≠ k := by
        intro he
        have : k ∈ rest.map Prod.fst := by
          have := List.mem_map_of_mem Prod.fst hrest
          simpa using this
        exact hnodup.1 (he ▸ this)
      rw [List.foldl_cons]
      apply ih _ hnd (by simpa using hnodup.2) hrest
      unfold ctDictStep
      by_cases hc : containsNdcg p.1 = true
      · rw [if_pos hc]
        rw [alookup_setdefaultD_ne dd p.1 _ k hpk]
        exact hdd
      · rw [if_neg hc]
        exact hdd

theorem ctKV_scoredInputs (epoch : ℕ) (st : CTState) (kc : String × List ℚ) :
    (ctKV epoch st kc).scoredInputs = st.scoredInputs := rfl

theorem foldl_ctKV_scoredInputs (epoch : ℕ) (zs : List (String × List ℚ)) :
    ∀ st : CTState, ((zs.foldl (ctKV epoch) st).scoredInputs) = st.scoredInputs := by
  induction zs with
  | nil => intro st; rfl
  | cons z rest ih =>
    intro st
    rw [List.foldl_cons, ih, ctKV_scoredInputs]

theorem ctEntry_scoredInputs (score : ScoreFn) (metricF : MetricFn) (epoch : ℕ) (q : Query)
    (st : CTState) (p : String × List ℕ) :
    (ctEntry score metricF epoch q st p).scoredInputs = st.scoredInputs := by
  unfold ctEntry
  by_cases hc : containsNdcg p.1 = true
  · rw [if_pos hc, foldl_ctKV_scoredInputs]
  · rw [if_neg hc]

theorem foldl_ctEntry_scoredInputs (score : ScoreFn) (metricF : MetricFn) (epoch : ℕ) (q : Query)
    (entries : List (String × List ℕ)) :
    ∀ st : CTState,
      ((entries.foldl (ctEntry score metricF epoch q) st).scoredInputs) = st.scoredInputs := by
  induction entries with
  | nil => intro st; rfl
  | cons p rest ih =>
    intro st
    rw [List.foldl_cons, ih, ctEntry_scoredInputs]

theorem processQuery_scoredInputs (spec : List (String × List ℕ)) (score : ScoreFn)
    (metricF : MetricFn) (epoch : ℕ) (st : CTState) (q : Query) :
    (processQuery spec score metricF epoch st q).scoredInputs =
      st.scoredInputs ++ [sanitizeQ q.x] := by
  unfold processQuery
  rw [foldl_ctEntry_scoredInputs]

theorem foldl_processQuery_scoredInputs (spec : List (String × List ℕ)) (score : ScoreFn)
    (metricF : MetricFn) (epoch : ℕ) (queries : List Query) :
    ∀ st : CTState,
      ((queries.foldl (processQuery spec score metricF epoch) st).scoredInputs) =
        st.scoredInputs ++ queries.map (fun q => sanitizeQ q.x) := by
  induction queries with
  | nil => intro st; simp
  | cons q rest ih =>
    intro st
    rw [List.foldl_cons, ih, processQuery_scoredInputs]
    simp

theorem compute_test_scoredInputs (spec : List (String × List ℕ)) (score : ScoreFn)
    (metricF : MetricFn) (queries : List Query) (epoch : ℕ) :
    (compute_test spec score metricF queries epoch).scoredInputs =
      queries.map (fun q => sanitizeQ q.x) := by
  simp [compute_test, foldl_processQuery_scoredInputs]

theorem foldl_ctKV_allResults_ne (epoch : ℕ) (k : String) (zs : List (String × List ℚ)) :
    ∀ st : CTState, (∀ z ∈ zs, z.1 ≠ k) →
      alookup ((zs.foldl (ctKV epoch) st).allResults) k = alookup st.allResults k := by
  induction zs with
  | nil => intro st _; rfl
  | cons z rest ih =>
    intro st h
    rw [List.foldl_cons, ih _ (fun z2 hm => h z2 (List.mem_cons_of_mem z hm))]
    exact alookup_aupdate_ne st.allResults k z.1 _ (h z (List.mem_cons_self z rest))

theorem foldl_ctKV_files_ne (epoch : ℕ) (k : String) (zs : List (String × List ℚ)) :
    ∀ st : CTState, (∀ z ∈ zs, mfile epoch z.1 ≠ mfile epoch k) →
      alookup ((zs.foldl (ctKV epoch) st).files) (mfile epoch k) =
        alookup st.files (mfile epoch k) := by
  induction zs with
  | nil => intro st _; rfl
  | cons z rest ih =>
    intro st h
    rw [List.foldl_cons, ih _ (fun z2 hm => h z2 (List.mem_cons_of_mem z hm))]
    exact alookup_fappend_ne st.files (mfile epoch k) (mfile epoch z.1) _
      (h z (List.mem_cons_self z rest))

theorem zip_fold_ctKV_set (epoch : ℕ) :
    ∀ (ks : List String) (cs : List (List ℚ)) (j : ℕ) (st : CTState),
      ks.Nodup → (ks.map (mfile epoch)).Nodup → j < ks.length → j < cs.length →
      (alookup (((ks.zip cs).foldl (ctKV epoch) st).allResults) (ks.getD j "") =
        (alookup st.allResults (ks.getD j "")).map (fun xs => xs ++ [cs.getD j []]))
      ∧ (alookup (((ks.zip cs).foldl (ctKV epoch) st).files) (mfile epoch (ks.getD j "")) =
        some (((alookup st.files (mfile epoch (ks.getD j ""))).getD []) ++
          (cs.getD j []).map (fun v => toString v))) := by
  intro ks
  induction ks with
  | nil => intro cs j st _ _ hj _; simp at hj
  | cons k0 ks ih =>
    intro cs j st hnd hndf hj hjc
    rcases cs with _ | ⟨c0, cs⟩
    · simp at hjc
    rw [List.map_cons] at hndf
    rcases j with _ | j
    · have hks : ∀ z ∈ ks.zip cs, z.1 ≠ k0 := by
        intro z hz he
        exact (List.nodup_cons.mp hnd).1 (he ▸ (List.of_mem_zip hz).1)
      have hfs : ∀ z ∈ ks.zip cs, mfile epoch z.1 ≠ mfile epoch k0 := by
        intro z hz he
        exact (List.nodup_cons.mp hndf).1
          (he ▸ List.mem_map_of_mem (mfile epoch) (List.of_mem_zip hz).1)
      constructor
      · rw [List.zip_cons_cons, List.foldl_cons]
        simp only [List.getD_cons_zero]
        rw [foldl_ctKV_allResults_ne epoch k0 _ _ hks]
        exact alookup_aupdate_self st.allResults k0 (fun xs => xs ++ [c0])
      · rw [List.zip_cons_cons, List.foldl_cons]
        simp only [List.getD_cons_zero]
        rw [foldl_ctKV_files_ne epoch k0 _ _ hfs]
        exact alookup_fappend_self st.files (mfile epoch k0) (c0.map (fun v => toString v))
    · have hjk : j < ks.length := by simpa using hj
      have hjc2 : j < cs.length := by simpa using hjc
      have hmem : ks.getD j "" ∈ ks := by
        rw [List.getD_eq_getElem ks "" hjk]
        exact List.getElem_mem hjk
      have hne : k0 ≠ ks.getD j "" := by
        intro he
        exact (List.nodup_cons.mp hnd).1 (he ▸ hmem)
      have hnef : mfile epoch k0 ≠ mfile epoch (ks.getD j "") := by
        intro he
        exact (List.nodup_cons.mp hndf).1 (he ▸ List.mem_map_of_mem (mfile epoch) hmem)
      have harstart :
          alookup (ctKV epoch st (k0, c0)).allResults (ks.getD j "") =
            alookup st.allResults (ks.getD j "") :=
        alookup_aupdate_ne st.allResults (ks.getD j "") k0 _ hne
      have hfstart :
          alookup (ctKV epoch st (k0, c0)).files (mfile epoch (ks.getD j "")) =
            alookup st.files (mfile epoch (ks.getD j "")) :=
        alookup_fappend_ne st.files (mfile epoch (ks.getD j "")) (mfile epoch k0) _ hnef
      have hrec := ih cs j (ctKV epoch st (k0, c0)) (List.nodup_cons.mp hnd).2
        (List.nodup_cons.mp hndf).2 hjk hjc2
      constructor
      · rw [List.zip_cons_cons, List.foldl_cons]
        have h1 := hrec.1
        rw [harstart] at h1
        simpa [List.getD_cons_succ] using h1
      · rw [List.zip_cons_cons, List.foldl_cons]
        have h2 := hrec.2
        rw [hfstart] at h2
        simpa [List.getD_cons_succ] using h2

theorem keysOf_length (n : String) (ats : List ℕ) : (keysOf n ats).length = ats.length := by
  simp [keysOf]

theorem columnsOf_length (vals : List (List ℚ)) :
    (columnsOf vals).length = (vals.headD []).length := by
  simp [columnsOf]

theorem columnsOf_getD (vals : List (List ℚ)) (j : ℕ) (h : j < (vals.headD []).length) :
    (columnsOf vals).getD j [] = vals.map (fun r => r.getD j 0) := by
  unfold columnsOf
  rw [List.getD_eq_getElem?_getD, List.getElem?_map, List.getElem?_range h]
  rfl

theorem startsWithL_append (pat l l2 : List Char) (h : startsWithL l pat = true) :
    startsWithL (l ++ l2) pat = true := by
  induction pat generalizing l with
  | nil => cases l <;> simp [startsWithL]
  | cons b bs ih =>
    rcases l with _ | ⟨a, as⟩
    · simp [startsWithL] at h
    · simp only [startsWithL, Bool.and_eq_true] at h
      simp only [List.cons_append, startsWithL, Bool.and_eq_true]
      exact ⟨h.1, ih as h.2⟩

theorem hasSubList_nil_pat (l : List Char) : hasSubList [] l = true := by
  induction l with
  | nil => rfl
  | cons c rest ih => simp [hasSubList, startsWithL]

theorem hasSubList_append_right (pat l1 l2 : List Char) (h : hasSubList pat l1 = true) :
    hasSubList pat (l1 ++ l2) = true := by
  induction l1 with
  | nil =>
    have hp : pat = [] := by
      rcases pat with _ | ⟨b, bs⟩
      · rfl
      · simp [hasSubList, startsWithL] at h
    rw [hp]
    exact hasSubList_nil_pat _
  | cons c rest ih =>
    simp only [hasSubList, Bool.or_eq_true] at h
    rcases h with h | h
    · simp only [List.cons_append, hasSubList, Bool.or_eq_true]
      exact Or.inl (startsWithL_append pat (c :: rest) l2 h)
    · simp only [List.cons_append, hasSubList, Bool.or_eq_true]
      exact Or.inr (ih h)

theorem containsNdcg_append (n t : String) (h : containsNdcg n = true) :
    containsNdcg (n ++ t) = true := by
  unfold containsNdcg at h ⊢
  rw [String.data_append]
  exact hasSubList_append_right _ _ _ h

theorem keysOf_getD (n : String) (ats : List ℕ) (j : ℕ) (h : j < ats.length) :
    (keysOf n ats).getD j "" = n ++ "_" ++ Nat.repr (ats.getD j 0) := by
  unfold keysOf
  rw [List.getD_eq_getElem?_getD, List.getElem?_map, List.getD_eq_getElem?_getD]
  rcases ho : ats[j]? with _ | a
  · rw [List.getElem?_eq_none_iff] at ho
    omega
  · rfl

theorem containsNdcg_keysOf (n : String) (ats : List ℕ) (j : ℕ) (hj : j < ats.length)
    (h : containsNdcg n = true) : containsNdcg ((keysOf n ats).getD j "") = true := by
  rw [keysOf_getD n ats j hj]
  exact containsNdcg_append _ _ (containsNdcg_append _ _ h)

theorem metricKeys_decomp (l1 l2 : List (String × List ℕ)) (p : String × List ℕ) :
    metricKeys (l1 ++ p :: l2) = metricKeys l1 ++ (keysOf p.1 p.2 ++ metricKeys l2) := by
  simp [metricKeys, List.map_append]

theorem alookup_map_pair_f {α : Type} (ks : List String) (g : String → String) (k : String)
    (init : α) (h : k ∈ ks) : alookup (ks.map (fun m => (g m, init))) (g k) = some init := by
  induction ks with
  | nil => simp at h
  | cons m rest ih =>
    by_cases hm : g m = g k
    · simp [List.map_cons, alookup_cons_self (g m, init) _ (g k) hm]
    · have hk : k ∈ rest := by
        rcases List.mem_cons.mp h with h1 | h2
        · exact absurd (congrArg g h1.symm) hm
        · exact h2
      simpa [List.map_cons, alookup_cons_ne (g m, init) _ (g k) hm] using ih hk

theorem metric_on_epoch_length (metric : List (List ℚ) → List (List ℚ) → List (List ℚ))
    (score : ScoreFn) (dl : List TBatch) :
    (metric_on_epoch metric score dl).length =
      (((dl.map (metric_on_batch metric score)).flatten).headD []).length := by
  simp [metric_on_epoch]

theorem metric_on_epoch_getD (metric : List (List ℚ) → List (List ℚ) → List (List ℚ))
    (score : ScoreFn) (dl : List TBatch) (j : ℕ)
    (h : j < (((dl.map (metric_on_batch metric score)).flatten).headD []).length) :
    (metric_on_epoch metric score dl).getD j 0 =
      (((dl.map (metric_on_batch metric score)).flatten).map (fun r => r.getD j 0)).sum /
        (((dl.map (metric_on_batch metric score)).flatten).length : ℚ) := by
  unfold metric_on_epoch
  rw [List.getD_eq_getElem?_getD, List.getElem?_map, List.getElem?_range h]
  rfl

theorem foldl_dictUpdate_ne (k : String) (zs : List (String × ℚ)) :
    ∀ d : List (String × ℚ), (∀ z ∈ zs, z.1 ≠ k) →
      alookup (zs.foldl dictUpdate d) k = alookup d k := by
  induction zs with
  | nil => intro d _; rfl
  | cons z rest ih =>
    intro d h
    rw [List.foldl_cons, ih _ (fun z2 hm => h z2 (List.mem_cons_of_mem z hm))]
    exact alookup_dictUpdate_ne d z k (h z (List.mem_cons_self z rest))

theorem zip_fold_dictUpdate_set :
    ∀ (ks : List String) (vs : List ℚ) (j : ℕ) (d : List (String × ℚ)),
      ks.Nodup → j < ks.length → j < vs.length →
      alookup ((ks.zip vs).foldl dictUpdate d) (ks.getD j "") = some (vs.getD j 0) := by
  intro ks
  induction ks with
  | nil => intro vs j d _ hj _; simp at hj
  | cons k0 ks ih =>
    intro vs j d hnd hj hjv
    rcases vs with _ | ⟨v0, vs⟩
    · simp at hjv
    rcases j with _ | j
    · have hks : ∀ z ∈ ks.zip vs, z.1 ≠ k0 := by
        intro z hz he
        exact (List.nodup_cons.mp hnd).1 (he ▸ (List.of_mem_zip hz).1)
      rw [List.zip_cons_cons, List.foldl_cons]
      simp only [List.getD_cons_zero]
      rw [foldl_dictUpdate_ne k0 _ _ hks]
      exact alookup_dictUpdate_self d (k0, v0)
    · have hjk : j < ks.length := by simpa using hj
      have hjv2 : j < vs.length := by simpa using hjv
      rw [List.zip_cons_cons, List.foldl_cons]
      simp only [List.getD_cons_succ]
      exact ih vs j (dictUpdate d (k0, v0)) (List.nodup_cons.mp hnd).2 hjk hjv2

theorem cmEntry_preserve (metricF : MetricFn) (score : ScoreFn) (dl : List TBatch)
    (p : String × List ℕ) (k : String) (d : List (String × ℚ))
    (h : ∀ m ∈ keysOf p.1 p.2, m ≠ k) :
    alookup (cmEntry metricF score dl d p) k = alookup d k := by
  unfold cmEntry
  exact foldl_dictUpdate_ne k _ d (fun z hz => h z.1 (List.of_mem_zip hz).1)

theorem foldl_cmEntry_preserve (metricF : MetricFn) (score : ScoreFn) (dl : List TBatch)
    (k : String) (entries : List (String × List ℕ)) :
    ∀ d : List (String × ℚ), (∀ p ∈ entries, ∀ m ∈ keysOf p.1 p.2, m ≠ k) →
      alookup (entries.foldl (cmEntry metricF score dl) d) k = alookup d k := by
  induction entries with
  | nil => intro d _; rfl
  | cons p rest ih =>
    intro d h
    rw [List.foldl_cons, ih _ (fun p2 hm => h p2 (List.mem_cons_of_mem p hm))]
    exact cmEntry_preserve metricF score dl p k d (h p (List.mem_cons_self p rest))

theorem compute_metrics_lookup (l1 l2 : List (String × List ℕ)) (n : String) (ats : List ℕ)
    (j : ℕ) (metricF : MetricFn) (score : ScoreFn) (dl : List TBatch)
    (hND : (metricKeys (l1 ++ (n, ats) :: l2)).Nodup) (hj : j < ats.length)
    (hlen : ats.length ≤ (metric_on_epoch (metricF n ats) score dl).length) :
    alookup (compute_metrics (l1 ++ (n, ats) :: l2) metricF score dl) ((keysOf n ats).getD j "") =
      some ((metric_on_epoch (metricF n ats) score dl).getD j 0) := by
  unfold compute_metrics
  rw [List.foldl_append, List.foldl_cons]
  rw [metricKeys_decomp l1 l2 (n, ats)] at hND
  rcases List.nodup_append.mp hND with ⟨_, hnd2, hdisj⟩
  rcases List.nodup_append.mp hnd2 with ⟨hkN, _, hdisj2⟩
  have hl2 : ∀ p ∈ l2, ∀ m ∈ keysOf p.1 p.2, m ≠ (keysOf n ats).getD j "" := by
    intro p hp m hm he
    have hkmem : (keysOf n ats).getD j "" ∈ keysOf n ats := by
      have hjk : j < (keysOf n ats).length := by rw [keysOf_length]; exact hj
      rw [List.getD_eq_getElem (keysOf n ats) "" hjk]
      exact List.getElem_mem hjk
    have hmm : m ∈ metricKeys l2 := by
      unfold metricKeys
      rw [List.mem_flatten]
      exact ⟨keysOf p.1 p.2, List.mem_map_of_mem _ hp, hm⟩
    exact hdisj2 hkmem (he ▸ hmm)
  rw [foldl_cmEntry_preserve metricF score dl _ l2 _ hl2]
  unfold cmEntry
  exact zip_fold_dictUpdate_set (keysOf n ats) _ j _ hkN
    (by rw [keysOf_length]; exact hj) (lt_of_lt_of_le hj hlen)

theorem ctEntry_skip (score : ScoreFn) (metricF : MetricFn) (epoch : ℕ) (q : Query)
    (st : CTState) (p : String × List ℕ) (h : containsNdcg p.1 = false) :
    ctEntry score metricF epoch q st p = st := by
  unfold ctEntry
  rw [if_neg (by simp [h])]

theorem ctEntry_target (score : ScoreFn) (metricF : MetricFn) (epoch : ℕ) (q : Query)
    (n : String) (ats : List ℕ) (j : ℕ) (st : CTState)
    (hnd : containsNdcg n = true) (hkN : (keysOf n ats).Nodup)
    (hkNf : ((keysOf n ats).map (mfile epoch)).Nodup) (hj : j < ats.length)
    (hw : ats.length ≤ ((metricF n ats (predOf score q) [q.y]).headD []).length) :
    (alookup ((ctEntry score metricF epoch q st (n, ats)).allResults) ((keysOf n ats).getD j "") =
      (alookup st.allResults ((keysOf n ats).getD j "")).map
        (fun xs => xs ++ [colAt metricF score n ats j q]))
    ∧ (alookup ((ctEntry score metricF epoch q st (n, ats)).files)
        (mfile epoch ((keysOf n ats).getD j "")) =
      some (((alookup st.files (mfile epoch ((keysOf n ats).getD j ""))).getD []) ++
        (colAt metricF score n ats j q).map (fun v => toString v))) := by
  have hjk : j < (keysOf n ats).length := by rw [keysOf_length]; exact hj
  have hjw : j < ((metricF n ats (predOf score q) [q.y]).headD []).length :=
    lt_of_lt_of_le hj hw
  have hjc : j < (columnsOf (metricF n ats (predOf score q) [q.y])).length := by
    rw [columnsOf_length]
    exact hjw
  have hset := zip_fold_ctKV_set epoch (keysOf n ats)
    (columnsOf (metricF n ats (predOf score q) [q.y])) j st hkN hkNf hjk hjc
  have hcol : (columnsOf (metricF n ats (predOf score q) [q.y])).getD j [] =
      colAt metricF score n ats j q := by
    rw [columnsOf_getD _ j hjw]
    rfl
  rw [hcol] at hset
  unfold ctEntry
  rw [if_pos hnd]
  exact hset

theorem ctEntry_preserve (score : ScoreFn) (metricF : MetricFn) (epoch : ℕ) (q : Query)
    (p : String × List ℕ) (k : String) (st : CTState)
    (ha : ∀ m ∈ keysOf p.1 p.2, m ≠ k)
    (hf : ∀ m ∈ keysOf p.1 p.2, mfile epoch m ≠ mfile epoch k) :
    (alookup ((ctEntry score metricF epoch q st p).allResults) k = alookup st.allResults k)
    ∧ (alookup ((ctEntry score metricF epoch q st p).files) (mfile epoch k) =
        alookup st.files (mfile epoch k)) := by
  unfold ctEntry
  by_cases hc : containsNdcg p.1 = true
  · rw [if_pos hc]
    constructor
    · exact foldl_ctKV_allResults_ne epoch k _ st (fun z hz => ha z.1 (List.of_mem_zip hz).1)
    · exact foldl_ctKV_files_ne epoch k _ st (fun z hz => hf z.1 (List.of_mem_zip hz).1)
  · rw [if_neg hc]
    exact ⟨rfl, rfl⟩

theorem foldl_ctEntry_preserve (score : ScoreFn) (metricF : MetricFn) (epoch : ℕ) (q : Query)
    (k : String) (entries : List (String × List ℕ)) :
    ∀ st : CTState, (∀ p ∈ entries, ∀ m ∈ keysOf p.1 p.2, m ≠ k) →
      (∀ p ∈ entries, ∀ m ∈ keysOf p.1 p.2, mfile epoch m ≠ mfile epoch k) →
      (alookup ((entries.foldl (ctEntry score metricF epoch q) st).allResults) k =
        alookup st.allResults k)
      ∧ (alookup ((entries.foldl (ctEntry score metricF epoch q) st).files) (mfile epoch k) =
        alookup st.files (mfile epoch k)) := by
  induction entries with
  | nil => intro st _ _; exact ⟨rfl, rfl⟩
  | cons p rest ih =>
    intro st ha hf
    have hstep := ctEntry_preserve score metricF epoch q p k st
      (ha p (List.mem_cons_self p rest)) (hf p (List.mem_cons_self p rest))
    have hrest := ih (ctEntry score metricF epoch q st p)
      (fun p2 hm => ha p2 (List.mem_cons_of_mem p hm))
      (fun p2 hm => hf p2 (List.mem_cons_of_mem p hm))
    rw [List.foldl_cons]
    exact ⟨hrest.1.trans hstep.1, hrest.2.trans hstep.2⟩

theorem processQuery_target (l1 l2 : List (String × List ℕ)) (score : ScoreFn)
    (metricF : MetricFn) (epoch : ℕ) (n : String) (ats : List ℕ) (j : ℕ) (q : Query)
    (st : CTState)
    (hnd : containsNdcg n = true) (hkN : (keysOf n ats).Nodup)
    (hkNf : ((keysOf n ats).map (mfile epoch)).Nodup) (hj : j < ats.length)
    (hl1a : ∀ p ∈ l1, ∀ m ∈ keysOf p.1 p.2, m ≠ (keysOf n ats).getD j "")
    (hl1f : ∀ p ∈ l1, ∀ m ∈ keysOf p.1 p.2,
      mfile epoch m ≠ mfile epoch ((keysOf n ats).getD j ""))
    (hl2a : ∀ p ∈ l2, ∀ m ∈ keysOf p.1 p.2, m ≠ (keysOf n ats).getD j "")
    (hl2f : ∀ p ∈ l2, ∀ m ∈ keysOf p.1 p.2,
      mfile epoch m ≠ mfile epoch ((keysOf n ats).getD j ""))
    (hw : ats.length ≤ ((metricF n ats (predOf score q) [q.y]).headD []).length) :
    (alookup ((processQuery (l1 ++ (n, ats) :: l2) score metricF epoch st q).allResults)
        ((keysOf n ats).getD j "") =
      (alookup st.allResults ((keysOf n ats).getD j "")).map
        (fun xs => xs ++ [colAt metricF score n ats j q]))
    ∧ (alookup ((processQuery (l1 ++ (n, ats) :: l2) score metricF epoch st q).files)
        (mfile epoch ((keysOf n ats).getD j "")) =
      some (((alookup st.files (mfile epoch ((keysOf n ats).getD j ""))).getD []) ++
        (colAt metricF score n ats j q).map (fun v => toString v))) := by
  have hgen : ∀ st0 : CTState,
      (alookup (((l1 ++ (n, ats) :: l2).foldl (ctEntry score metricF epoch q) st0).allResults)
          ((keysOf n ats).getD j "") =
        (alookup st0.allResults ((keysOf n ats).getD j "")).map
          (fun xs => xs ++ [colAt metricF score n ats j q]))
      ∧ (alookup (((l1 ++ (n, ats) :: l2).foldl (ctEntry score metricF epoch q) st0).files)
          (mfile epoch ((keysOf n ats).getD j "")) =
        some (((alookup st0.files (mfile epoch ((keysOf n ats).getD j ""))).getD []) ++
          (colAt metricF score n ats j q).map (fun v => toString v))) := by
    intro st0
    rw [List.foldl_append, List.foldl_cons]
    have h1 := foldl_ctEntry_preserve score metricF epoch q ((keysOf n ats).getD j "") l1
      st0 hl1a hl1f
    have h2 := ctEntry_target score metricF epoch q n ats j
      (l1.foldl (ctEntry score metricF epoch q) st0) hnd hkN hkNf hj hw
    have h3 := foldl_ctEntry_preserve score metricF epoch q ((keysOf n ats).getD j "") l2
      (ctEntry score metricF epoch q (l1.foldl (ctEntry score metricF epoch q) st0) (n, ats))
      hl2a hl2f
    constructor
    · rw [h3.1, h2.1, h1.1]
    · rw [h3.2, h2.2, h1.2]
  unfold processQuery
  exact hgen _

theorem processQuery_preserve (l1 l2 : List (String × List ℕ)) (score : ScoreFn)
    (metricF : MetricFn) (epoch : ℕ) (n : String) (ats : List ℕ) (k : String) (q : Query)
    (st : CTState)
    (hnd : containsNdcg n = false)
    (hl1a : ∀ p ∈ l1, ∀ m ∈ keysOf p.1 p.2, m ≠ k)
    (hl1f : ∀ p ∈ l1, ∀ m ∈ keysOf p.1 p.2, mfile epoch m ≠ mfile epoch k)
    (hl2a : ∀ p ∈ l2, ∀ m ∈ keysOf p.1 p.2, m ≠ k)
    (hl2f : ∀ p ∈ l2, ∀ m ∈ keysOf p.1 p.2, mfile epoch m ≠ mfile epoch k) :
    (alookup ((processQuery (l1 ++ (n, ats) :: l2) score metricF epoch st q).allResults) k =
      alookup st.allResults k)
    ∧ (alookup ((processQuery (l1 ++ (n, ats) :: l2) score metricF epoch st q).files)
        (mfile epoch k) = alookup st.files (mfile epoch k)) := by
  have hgen : ∀ st0 : CTState,
      (alookup (((l1 ++ (n, ats) :: l2).foldl (ctEntry score metricF epoch q) st0).allResults) k =
        alookup st0.allResults k)
      ∧ (alookup (((l1 ++ (n, ats) :: l2).foldl (ctEntry score metricF epoch q) st0).files)
          (mfile epoch k) = alookup st0.files (mfile epoch k)) := by
    intro st0
    rw [List.foldl_append, List.foldl_cons,
      ctEntry_skip score metricF epoch q _ (n, ats) hnd]
    have h1 := foldl_ctEntry_preserve score metricF epoch q k l1 st0 hl1a hl1f
    have h3 := foldl_ctEntry_preserve score metricF epoch q k l2
      (l1.foldl (ctEntry score metricF epoch q) st0) hl2a hl2f
    constructor
    · rw [h3.1, h1.1]
    · rw [h3.2, h1.2]
  unfold processQuery
  exact hgen _

theorem foldl_processQuery_set (l1 l2 : List (String × List ℕ)) (score : ScoreFn)
    (metricF : MetricFn) (epoch : ℕ) (n : String) (ats : List ℕ) (j : ℕ)
    (hnd : containsNdcg n = true) (hkN : (keysOf n ats).Nodup)
    (hkNf : ((keysOf n ats).map (mfile epoch)).Nodup) (hj : j < ats.length)
    (hl1a : ∀ p ∈ l1, ∀ m ∈ keysOf p.1 p.2, m ≠ (keysOf n ats).getD j "")
    (hl1f : ∀ p ∈ l1, ∀ m ∈ keysOf p.1 p.2,
      mfile epoch m ≠ mfile epoch ((keysOf n ats).getD j ""))
    (hl2a : ∀ p ∈ l2, ∀ m ∈ keysOf p.1 p.2, m ≠ (keysOf n ats).getD j "")
    (hl2f : ∀ p ∈ l2, ∀ m ∈ keysOf p.1 p.2,
      mfile epoch m ≠ mfile epoch ((keysOf n ats).getD j ""))
    (queries : List Query) :
    ∀ (st : CTState) (xs : List (List ℚ)) (cur : List String),
      alookup st.allResults ((keysOf n ats).getD j "") = some xs →
      alookup st.files (mfile epoch ((keysOf n ats).getD j "")) = some cur →
      (∀ q ∈ queries, ats.length ≤ ((metricF n ats (predOf score q) [q.y]).headD []).length) →
      (alookup
          ((queries.foldl (processQuery (l1 ++ (n, ats) :: l2) score metricF epoch) st).allResults)
          ((keysOf n ats).getD j "") =
        some (xs ++ queries.map (colAt metricF score n ats j)))
      ∧ (alookup
          ((queries.foldl (processQuery (l1 ++ (n, ats) :: l2) score metricF epoch) st).files)
          (mfile epoch ((keysOf n ats).getD j "")) =
        some (cur ++
          (queries.map (fun q => (colAt metricF score n ats j q).map (fun v => toString v))).flatten)) := by
  induction queries with
  | nil =>
    intro st xs cur hxs hcur _
    constructor
    · simpa using hxs
    · simpa using hcur
  | cons q rest ih =>
    intro st xs cur hxs hcur hw
    have hq := processQuery_target l1 l2 score metricF epoch n ats j q st hnd hkN hkNf hj
      hl1a hl1f hl2a hl2f (hw q (List.mem_cons_self q rest))
    have ha2 : alookup ((processQuery (l1 ++ (n, ats) :: l2) score metricF epoch st q).allResults)
        ((keysOf n ats).getD j "") = some (xs ++ [colAt metricF score n ats j q]) := by
      rw [hq.1, hxs]
      rfl
    have hf2 : alookup ((processQuery (l1 ++ (n, ats) :: l2) score metricF epoch st q).files)
        (mfile epoch ((keysOf n ats).getD j "")) =
        some (cur ++ (colAt metricF score n ats j q).map (fun v => toString v)) := by
      rw [hq.2, hcur]
      rfl
    have hrec := ih (processQuery (l1 ++ (n, ats) :: l2) score metricF epoch st q)
      (xs ++ [colAt metricF score n ats j q])
      (cur ++ (colAt metricF score n ats j q).map (fun v => toString v)) ha2 hf2
      (fun q2 hm => hw q2 (List.mem_cons_of_mem q hm))
    rw [List.foldl_cons]
    constructor
    · rw [hrec.1]
      simp
    · rw [hrec.2]
      simp

theorem foldl_processQuery_preserve (l1 l2 : List (String × List ℕ)) (score : ScoreFn)
    (metricF : MetricFn) (epoch : ℕ) (n : String) (ats : List ℕ) (k : String)
    (hnd : containsNdcg n = false)
    (hl1a : ∀ p ∈ l1, ∀ m ∈ keysOf p.1 p.2, m ≠ k)
    (hl1f : ∀ p ∈ l1, ∀ m ∈ keysOf p.1 p.2, mfile epoch m ≠ mfile epoch k)
    (hl2a : ∀ p ∈ l2, ∀ m ∈ keysOf p.1 p.2, m ≠ k)
    (hl2f : ∀ p ∈ l2, ∀ m ∈ keysOf p.1 p.2, mfile epoch m ≠ mfile epoch k)
    (queries : List Query) :
    ∀ st : CTState,
      (alookup
          ((queries.foldl (processQuery (l1 ++ (n, ats) :: l2) score metricF epoch) st).allResults)
          k = alookup st.allResults k)
      ∧ (alookup
          ((queries.foldl (processQuery (l1 ++ (n, ats) :: l2) score metricF epoch) st).files)
          (mfile epoch k) = alookup st.files (mfile epoch k)) := by
  induction queries with
  | nil => intro st; exact ⟨rfl, rfl⟩
  | cons q rest ih =>
    intro st
    have hq := processQuery_preserve l1 l2 score metricF epoch n ats k q st hnd
      hl1a hl1f hl2a hl2f
    have hrec := ih (processQuery (l1 ++ (n, ats) :: l2) score metricF epoch st q)
    rw [List.foldl_cons]
    exact ⟨hrec.1.trans hq.1, hrec.2.trans hq.2⟩

theorem ctKV_arkeys (epoch : ℕ) (st : CTState) (kc : String × List ℚ) :
    (ctKV epoch st kc).allResults.map Prod.fst = st.allResults.map Prod.fst :=
  aupdate_keys st.allResults kc.1 _

theorem foldl_ctKV_arkeys (epoch : ℕ) (zs : List (String × List ℚ)) :
    ∀ st : CTState,
      ((zs.foldl (ctKV epoch) st).allResults).map Prod.fst = st.allResults.map Prod.fst := by
  induction zs with
  | nil => intro st; rfl
  | cons z rest ih =>
    intro st
    rw [List.foldl_cons, ih, ctKV_arkeys]

theorem ctEntry_arkeys (score : ScoreFn) (metricF : MetricFn) (epoch : ℕ) (q : Query)
    (st : CTState) (p : String × List ℕ) :
    ((ctEntry score metricF epoch q st p).allResults).map Prod.fst =
      st.allResults.map Prod.fst := by
  unfold ctEntry
  by_cases hc : containsNdcg p.1 = true
  · rw [if_pos hc, foldl_ctKV_arkeys]
  · rw [if_neg hc]

theorem foldl_ctEntry_arkeys (score : ScoreFn) (metricF : MetricFn) (epoch : ℕ) (q : Query)
    (entries : List (String × List ℕ)) :
    ∀ st : CTState,
      ((entries.foldl (ctEntry score metricF epoch q) st).allResults).map Prod.fst =
        st.allResults.map Prod.fst := by
  induction entries with
  | nil => intro st; rfl
  | cons p rest ih =>
    intro st
    rw [List.foldl_cons, ih, ctEntry_arkeys]

theorem processQuery_arkeys (spec : List (String × List ℕ)) (score : ScoreFn)
    (metricF : MetricFn) (epoch : ℕ) (st : CTState) (q : Query) :
    ((processQuery spec score metricF epoch st q).allResults).map Prod.fst =
      st.allResults.map Prod.fst := by
  unfold processQuery
  rw [foldl_ctEntry_arkeys]

theorem foldl_processQuery_arkeys (spec : List (String × List ℕ)) (score : ScoreFn)
    (metricF : MetricFn) (epoch : ℕ) (queries : List Query) :
    ∀ st : CTState,
      ((queries.foldl (processQuery spec score metricF epoch) st).allResults).map Prod.fst =
        st.allResults.map Prod.fst := by
  induction queries with
  | nil => intro st; rfl
  | cons q rest ih =>
    intro st
    rw [List.foldl_cons, ih, processQuery_arkeys]

theorem fappend_isSome (fs : List (String × List String)) (k2 k : String) (ls : List String)
    (h : (alookup fs k).isSome = true) : (alookup (fappend fs k2 ls) k).isSome = true := by
  by_cases he : k2 = k
  · subst he
    rw [alookup_fappend_self]
    rfl
  · rw [alookup_fappend_ne fs k k2 ls he]
    exact h

theorem foldl_ctKV_files_isSome (epoch : ℕ) (fk : String) (zs : List (String × List ℚ)) :
    ∀ st : CTState, (alookup st.files fk).isSome = true →
      (alookup ((zs.foldl (ctKV epoch) st).files) fk).isSome = true := by
  induction zs with
  | nil => intro st h; exact h
  | cons z rest ih =>
    intro st h
    rw [List.foldl_cons]
    exact ih _ (fappend_isSome st.files (mfile epoch z.1) fk _ h)

theorem ctEntry_files_isSome (score : ScoreFn) (metricF : MetricFn) (epoch : ℕ) (q : Query)
    (fk : String) (st : CTState) (p : String × List ℕ)
    (h : (alookup st.files fk).isSome = true) :
    (alookup ((ctEntry score metricF epoch q st p).files) fk).isSome = true := by
  unfold ctEntry
  by_cases hc : containsNdcg p.1 = true
  · rw [if_pos hc]
    exact foldl_ctKV_files_isSome epoch fk _ st h
  · rw [if_neg hc]
    exact h

theorem foldl_ctEntry_files_isSome (score : ScoreFn) (metricF : MetricFn) (epoch : ℕ)
    (q : Query) (fk : String) (entries : List (String × List ℕ)) :
    ∀ st : CTState, (alookup st.files fk).isSome = true →
      (alookup ((entries.foldl (ctEntry score metricF epoch q) st).files) fk).isSome = true := by
  induction entries with
  | nil => intro st h; exact h
  | cons p rest ih =>
    intro st h
    rw [List.foldl_cons]
    exact ih _ (ctEntry_files_isSome score metricF epoch q fk st p h)

theorem processQuery_files_isSome (spec : List (String × List ℕ)) (score : ScoreFn)
    (metricF : MetricFn) (epoch : ℕ) (fk : String) (st : CTState) (q : Query)
    (h : (alookup st.files fk).isSome = true) :
    (alookup ((processQuery spec score metricF epoch st q).files) fk).isSome = true := by
  unfold processQuery
  exact foldl_ctEntry_files_isSome score metricF epoch q fk spec _ h

theorem foldl_processQuery_files_isSome (spec : List (String × List ℕ)) (score : ScoreFn)
    (metricF : MetricFn) (epoch : ℕ) (fk : String) (queries : List Query) :
    ∀ st : CTState, (alookup st.files fk).isSome = true →
      (alookup ((queries.foldl (processQuery spec score metricF epoch) st).files) fk).isSome =
        true := by
  induction queries with
  | nil => intro st h; exact h
  | cons q rest ih =>
    intro st h
    rw [List.foldl_cons]
    exact ih _ (processQuery_files_isSome spec score metricF epoch fk st q h)

theorem ctDict_nondcg (ar : List (String × List (List ℚ))) (k : String) :
    ∀ (dd : List (String × ℚ)), containsNdcg k = false → alookup dd k = none →
      alookup (ar.foldl ctDictStep dd) k = none := by
  induction ar with
  | nil => intro dd _ hdd; exact hdd
  | cons p rest ih =>
    intro dd hnd hdd
    rw [List.foldl_cons]
    apply ih _ hnd
    unfold ctDictStep
    by_cases hc : containsNdcg p.1 = true
    · rw [if_pos hc]
      have hpk : p.1 ≠ k := by
        intro he
        rw [he, hnd] at hc
        exact Bool.false_ne_true hc
      rw [alookup_setdefaultD_ne dd p.1 _ k hpk]
      exact hdd
    · rw [if_neg hc]
      exact hdd

theorem compute_test_files_eq (spec : List (String × List ℕ)) (score : ScoreFn)
    (metricF : MetricFn) (queries : List Query) (epoch : ℕ) :
    (compute_test spec score metricF queries epoch).files =
      (queries.foldl (processQuery spec score metricF epoch)
        { predLines := [], files := (ctInit spec epoch).2, allResults := (ctInit spec epoch).1
          scoredInputs := [] }).files := rfl

theorem compute_test_dict_eq (spec : List (String × List ℕ)) (score : ScoreFn)
    (metricF : MetricFn) (queries : List Query) (epoch : ℕ) :
    (compute_test spec score metricF queries epoch).dict =
      ctDict ((queries.foldl (processQuery spec score metricF epoch)
        { predLines := [], files := (ctInit spec epoch).2, allResults := (ctInit spec epoch).1
          scoredInputs := [] }).allResults) := rfl

theorem memKeysOf_metricKeys (l : List (String × List ℕ)) (p : String × List ℕ) (hp : p ∈ l) :
    ∀ m ∈ keysOf p.1 p.2, m ∈ metricKeys l := by
  intro m hm
  unfold metricKeys
  rw [List.mem_flatten]
  exact ⟨keysOf p.1 p.2, List.mem_map_of_mem _ hp, hm⟩

theorem compute_test_ndcg (l1 l2 : List (String × List ℕ)) (n : String) (ats : List ℕ)
    (j : ℕ) (score : ScoreFn) (metricF : MetricFn) (queries : List Query) (epoch : ℕ)
    (hND : (metricKeys (l1 ++ (n, ats) :: l2)).Nodup)
    (hNDf : ((metricKeys (l1 ++ (n, ats) :: l2)).map (mfile epoch)).Nodup)
    (hnd : containsNdcg n = true) (hj : j < ats.length)
    (hw : ∀ q ∈ queries, ats.length ≤ ((metricF n ats (predOf score q) [q.y]).headD []).length) :
    (alookup (compute_test (l1 ++ (n, ats) :: l2) score metricF queries epoch).files
        (mfile epoch ((keysOf n ats).getD j "")) =
      some ((queries.map
        (fun q => (colAt metricF score n ats j q).map (fun v => toString v))).flatten))
    ∧ (alookup (compute_test (l1 ++ (n, ats) :: l2) score metricF queries epoch).dict
        ((keysOf n ats).getD j "") =
      some (npMeanFlat (queries.map (colAt metricF score n ats j)))) := by
  have hjk : j < (keysOf n ats).length := by rw [keysOf_length]; exact hj
  have hkmem : (keysOf n ats).getD j "" ∈ keysOf n ats := by
    rw [List.getD_eq_getElem (keysOf n ats) "" hjk]
    exact List.getElem_mem hjk
  have hdecomp := metricKeys_decomp l1 l2 (n, ats)
  have hND2 := hND
  rw [hdecomp] at hND2
  rcases List.nodup_append.mp hND2 with ⟨_, hnd2, hdisj1⟩
  rcases List.nodup_append.mp hnd2 with ⟨hkN, _, hdisj2⟩
  have hNDf2 := hNDf
  rw [hdecomp, List.map_append, List.map_append] at hNDf2
  rcases List.nodup_append.mp hNDf2 with ⟨_, hf2, hfdisj1⟩
  rcases List.nodup_append.mp hf2 with ⟨hkNf, _, hfdisj2⟩
  have hkin : (keysOf n ats).getD j "" ∈ metricKeys (l1 ++ (n, ats) :: l2) := by
    rw [hdecomp]
    exact List.mem_append.mpr (Or.inr (List.mem_append.mpr (Or.inl hkmem)))
  have hl1a : ∀ p ∈ l1, ∀ m ∈ keysOf p.1 p.2, m ≠ (keysOf n ats).getD j "" := by
    intro p hp m hm he
    exact hdisj1 (memKeysOf_metricKeys l1 p hp m hm)
      (he ▸ List.mem_append.mpr (Or.inl hkmem))
  have hl2a : ∀ p ∈ l2, ∀ m ∈ keysOf p.1 p.2, m ≠ (keysOf n ats).getD j "" := by
    intro p hp m hm he
    exact hdisj2 hkmem (he ▸ memKeysOf_metricKeys l2 p hp m hm)
  have hkfmem : mfile epoch ((keysOf n ats).getD j "") ∈ (keysOf n ats).map (mfile epoch) :=
    List.mem_map_of_mem _ hkmem
  have hl1f : ∀ p ∈ l1, ∀ m ∈ keysOf p.1 p.2,
      mfile epoch m ≠ mfile epoch ((keysOf n ats).getD j "") := by
    intro p hp m hm he
    exact hfdisj1 (List.mem_map_of_mem _ (memKeysOf_metricKeys l1 p hp m hm))
      (he ▸ List.mem_append.mpr (Or.inl hkfmem))
  have hl2f : ∀ p ∈ l2, ∀ m ∈ keysOf p.1 p.2,
      mfile epoch m ≠ mfile epoch ((keysOf n ats).getD j "") := by
    intro p hp m hm he
    exact hfdisj2 hkfmem (he ▸ List.mem_map_of_mem _ (memKeysOf_metricKeys l2 p hp m hm))
  have hinit := ctInit_build (l1 ++ (n, ats) :: l2) epoch hND hNDf
  have hxs0 : alookup ((ctInit (l1 ++ (n, ats) :: l2) epoch).1) ((keysOf n ats).getD j "") =
      some [] := by
    rw [hinit]
    exact alookup_map_pair _ _ _ hkin
  have hcur0 : alookup ((ctInit (l1 ++ (n, ats) :: l2) epoch).2)
      (mfile epoch ((keysOf n ats).getD j "")) = some [] := by
    rw [hinit]
    exact alookup_map_pair_f _ (mfile epoch) _ _ hkin
  have hset := foldl_processQuery_set l1 l2 score metricF epoch n ats j hnd hkN hkNf hj
    hl1a hl1f hl2a hl2f queries
    { predLines := [], files := (ctInit (l1 ++ (n, ats) :: l2) epoch).2
      allResults := (ctInit (l1 ++ (n, ats) :: l2) epoch).1, scoredInputs := [] }
    [] [] hxs0 hcur0 hw
  constructor
  · rw [compute_test_files_eq]
    simpa using hset.2
  · rw [compute_test_dict_eq]
    have har2 : alookup ((queries.foldl
        (processQuery (l1 ++ (n, ats) :: l2) score metricF epoch)
        { predLines := [], files := (ctInit (l1 ++ (n, ats) :: l2) epoch).2
          allResults := (ctInit (l1 ++ (n, ats) :: l2) epoch).1
          scoredInputs := [] }).allResults) ((keysOf n ats).getD j "") =
        some (queries.map (colAt metricF score n ats j)) := by
      simpa using hset.1
    have hmem2 := alookup_mem _ _ _ har2
    have hkeys : (((queries.foldl (processQuery (l1 ++ (n, ats) :: l2) score metricF epoch)
        { predLines := [], files := (ctInit (l1 ++ (n, ats) :: l2) epoch).2
          allResults := (ctInit (l1 ++ (n, ats) :: l2) epoch).1
          scoredInputs := [] }).allResults).map Prod.fst).Nodup := by
      rw [foldl_processQuery_arkeys]
      have heq : ((ctInit (l1 ++ (n, ats) :: l2) epoch).1).map Prod.fst =
          metricKeys (l1 ++ (n, ats) :: l2) := by
        rw [hinit]
        have hfun : (Prod.fst ∘ fun m : String => (m, ([] : List (List ℚ)))) = id := rfl
        rw [List.map_map, hfun, List.map_id]
      rw [heq]
      exact hND
    have hndk := containsNdcg_keysOf n ats j hj hnd
    exact ctDict_go_found _ _ _ [] hndk hkeys hmem2 rfl

theorem compute_test_nonndcg (l1 l2 : List (String × List ℕ)) (n : String) (ats : List ℕ)
    (j : ℕ) (score : ScoreFn) (metricF : MetricFn) (queries : List Query) (epoch : ℕ)
    (hND : (metricKeys (l1 ++ (n, ats) :: l2)).Nodup)
    (hNDf : ((metricKeys (l1 ++ (n, ats) :: l2)).map (mfile epoch)).Nodup)
    (hnd : containsNdcg n = false) (hj : j < ats.length)
    (hndk : containsNdcg ((keysOf n ats).getD j "") = false) :
    (alookup (compute_test (l1 ++ (n, ats) :: l2) score metricF queries epoch).files
        (mfile epoch ((keysOf n ats).getD j "")) = some [])
    ∧ (alookup (compute_test (l1 ++ (n, ats) :: l2) score metricF queries epoch).dict
        ((keysOf n ats).getD j "") = none) := by
  have hjk : j < (keysOf n ats).length := by rw [keysOf_length]; exact hj
  have hkmem : (keysOf n ats).getD j "" ∈ keysOf n ats := by
    rw [List.getD_eq_getElem (keysOf n ats) "" hjk]
    exact List.getElem_mem hjk
  have hdecomp := metricKeys_decomp l1 l2 (n, ats)
  have hND2 := hND
  rw [hdecomp] at hND2
  rcases List.nodup_append.mp hND2 with ⟨_, hnd2, hdisj1⟩
  rcases List.nodup_append.mp hnd2 with ⟨_, _, hdisj2⟩
  have hNDf2 := hNDf
  rw [hdecomp, List.map_append, List.map_append] at hNDf2
  rcases List.nodup_append.mp hNDf2 with ⟨_, hf2, hfdisj1⟩
  rcases List.nodup_append.mp hf2 with ⟨_, _, hfdisj2⟩
  have hkin : (keysOf n ats).getD j "" ∈ metricKeys (l1 ++ (n, ats) :: l2) := by
    rw [hdecomp]
    exact List.mem_append.mpr (Or.inr (List.mem_append.mpr (Or.inl hkmem)))
  have hl1a : ∀ p ∈ l1, ∀ m ∈ keysOf p.1 p.2, m ≠ (keysOf n ats).getD j "" := by
    intro p hp m hm he
    exact hdisj1 (memKeysOf_metricKeys l1 p hp m hm)
      (he ▸ List.mem_append.mpr (Or.inl hkmem))
  have hl2a : ∀ p ∈ l2, ∀ m ∈ keysOf p.1 p.2, m ≠ (keysOf n ats).getD j "" := by
    intro p hp m hm he
    exact hdisj2 hkmem (he ▸ memKeysOf_metricKeys l2 p hp m hm)
  have hkfmem : mfile epoch ((keysOf n ats).getD j "") ∈ (keysOf n ats).map (mfile epoch) :=
    List.mem_map_of_mem _ hkmem
  have hl1f : ∀ p ∈ l1, ∀ m ∈ keysOf p.1 p.2,
      mfile epoch m ≠ mfile epoch ((keysOf n ats).getD j "") := by
    intro p hp m hm he
    exact hfdisj1 (List.mem_map_of_mem _ (memKeysOf_metricKeys l1 p hp m hm))
      (he ▸ List.mem_append.mpr (Or.inl hkfmem))
  have hl2f : ∀ p ∈ l2, ∀ m ∈ keysOf p.1 p.2,
      mfile epoch m ≠ mfile epoch ((keysOf n ats).getD j "") := by
    intro p hp m hm he
    exact hfdisj2 hkfmem (he ▸ List.mem_map_of_mem _ (memKeysOf_metricKeys l2 p hp m hm))
  have hinit := ctInit_build (l1 ++ (n, ats) :: l2) epoch hND hNDf
  have hcur0 : alookup ((ctInit (l1 ++ (n, ats) :: l2) epoch).2)
      (mfile epoch ((keysOf n ats).getD j "")) = some [] := by
    rw [hinit]
    exact alookup_map_pair_f _ (mfile epoch) _ _ hkin
  have hpres := foldl_processQuery_preserve l1 l2 score metricF epoch n ats
    ((keysOf n ats).getD j "") hnd hl1a hl1f hl2a hl2f queries
    { predLines := [], files := (ctInit (l1 ++ (n, ats) :: l2) epoch).2
      allResults := (ctInit (l1 ++ (n, ats) :: l2) epoch).1, scoredInputs := [] }
  constructor
  · rw [compute_test_files_eq, hpres.2]
    exact hcur0
  · rw [compute_test_dict_eq]
    exact ctDict_nondcg _ _ [] hndk rfl

theorem compute_test_file_present (spec : List (String × List ℕ)) (score : ScoreFn)
    (metricF : MetricFn) (queries : List Query) (epoch : ℕ) (k : String)
    (hND : (metricKeys spec).Nodup) (hNDf : ((metricKeys spec).map (mfile epoch)).Nodup)
    (hk : k ∈ metricKeys spec) :
    (alookup (compute_test spec score metricF queries epoch).files (mfile epoch k)).isSome =
      true := by
  rw [compute_test_files_eq]
  apply foldl_processQuery_files_isSome
  have hinit := ctInit_build spec epoch hND hNDf
  have hsome : alookup ((ctInit spec epoch).2) (mfile epoch k) = some [] := by
    rw [hinit]
    exact alookup_map_pair_f _ (mfile epoch) _ _ hk
  rw [hsome]
  rfl

theorem sanitize_row_getD (row : List FVal) (j : ℕ) :
    (row.map (fun v => if isnan v then FVal.fin 0 else v)).getD j (FVal.fin 0) =
      if isnan (row.getD j (FVal.fin 0)) then FVal.fin 0 else row.getD j (FVal.fin 0) :=
  List.getD_map row (FVal.fin 0) (fun v => if isnan v then FVal.fin 0 else v)

theorem sanitizeQ_getD (x : List (List FVal)) (i j : ℕ) :
    ((sanitizeQ x).getD i []).getD j (FVal.fin 0) =
      if isnan ((x.getD i []).getD j (FVal.fin 0)) then FVal.fin 0
      else (x.getD i []).getD j (FVal.fin 0) := by
  have houter : (sanitizeQ x).getD i [] =
      (x.getD i []).map (fun v => if isnan v then FVal.fin 0 else v) :=
    List.getD_map x [] (fun row => row.map (fun v => if isnan v then FVal.fin 0 else v))
  rw [houter]
  exact sanitize_row_getD (x.getD i []) j

theorem flatten_map_singleton {α β : Type} (l : List α) (g : α → β) :
    (l.map (fun x => [g x])).flatten = l.map g := by
  induction l with
  | nil => rfl
  | cons a rest ih => simp [ih]

/-- C5 counterexample: a query whose single feature is positive infinity is
passed to `model.score` unchanged: the non-finite value is not replaced by
zero, because the source only tests `torch.isnan`. -/
theorem C5_counterexample_infinity_not_replaced :
    (compute_test specX scoreX metricX [{ x := [[FVal.posInf]], y := [1] }] 0).scoredInputs =
      [[[FVal.posInf]]]
    ∧ isfinite FVal.posInf = false
    ∧ FVal.posInf ≠ FVal.fin 0 := by
  refine ⟨by decide, by decide, by decide⟩

/-- C5 amended: the tensor `compute_test` passes to `model.score` for each
query is that query feature matrix with exactly the NaN entries replaced
by zero; every non-NaN entry, the two infinities included, is passed
through unchanged. -/
theorem C5_only_nan_zeroed_amended :
    (∀ (spec : List (String × List ℕ)) (score : ScoreFn) (metricF : MetricFn)
        (queries : List Query) (epoch : ℕ),
      (compute_test spec score metricF queries epoch).scoredInputs =
        queries.map (fun q => sanitizeQ q.x))
    ∧ (∀ (x : List (List FVal)) (i j : ℕ),
      ((sanitizeQ x).getD i []).getD j (FVal.fin 0) =
        if isnan ((x.getD i []).getD j (FVal.fin 0)) then FVal.fin 0
        else (x.getD i []).getD j (FVal.fin 0))
    ∧ isnan FVal.posInf = false ∧ isnan FVal.negInf = false ∧ isnan FVal.nan = true := by
  refine ⟨?_, ?_, rfl, rfl, rfl⟩
  · intro spec score metricF queries epoch
    exact compute_test_scoredInputs spec score metricF queries epoch
  · intro x i j
    exact sanitizeQ_getD x i j

/-- C10: `compute_test` creates (truncated to empty) the per-cutoff file
for every configured metric and cutoff; a metric whose name does not
contain "ndcg" leaves its file empty and its key out of the returned
dictionary, while a metric whose name contains "ndcg" gets one appended
column per query in its file and its key mapped to the flattened mean of
the collected per-query values. -/
theorem C10_ndcg_only_export :
    ∀ (spec : List (String × List ℕ)) (score : ScoreFn) (metricF : MetricFn)
      (queries : List Query) (epoch : ℕ) (n : String) (ats : List ℕ) (j : ℕ),
      (n, ats) ∈ spec → j < ats.length →
      (metricKeys spec).Nodup → ((metricKeys spec).map (mfile epoch)).Nodup →
      ((alookup (compute_test spec score metricF queries epoch).files
          (mfile epoch ((keysOf n ats).getD j ""))).isSome = true)
      ∧ (containsNdcg n = false → containsNdcg ((keysOf n ats).getD j "") = false →
          alookup (compute_test spec score metricF queries epoch).files
              (mfile epoch ((keysOf n ats).getD j "")) = some []
          ∧ alookup (compute_test spec score metricF queries epoch).dict
              ((keysOf n ats).getD j "") = none)
      ∧ (containsNdcg n = true →
          (∀ q ∈ queries,
            ats.length ≤ ((metricF n ats (predOf score q) [q.y]).headD []).length) →
          alookup (compute_test spec score metricF queries epoch).files
              (mfile epoch ((keysOf n ats).getD j "")) =
            some ((queries.map
              (fun q => (colAt metricF score n ats j q).map (fun v => toString v))).flatten)
          ∧ alookup (compute_test spec score metricF queries epoch).dict
              ((keysOf n ats).getD j "") =
            some (npMeanFlat (queries.map (colAt metricF score n ats j)))) := by
  intro spec score metricF queries epoch n ats j hmem hj hND hNDf
  obtain ⟨l1, l2, hspec⟩ := List.append_of_mem hmem
  subst hspec
  refine ⟨?_, ?_, ?_⟩
  · have hjk : j < (keysOf n ats).length := by rw [keysOf_length]; exact hj
    have hkmem : (keysOf n ats).getD j "" ∈ keysOf n ats := by
      rw [List.getD_eq_getElem (keysOf n ats) "" hjk]
      exact List.getElem_mem hjk
    have hkin : (keysOf n ats).getD j "" ∈ metricKeys (l1 ++ (n, ats) :: l2) := by
      rw [metricKeys_decomp l1 l2 (n, ats)]
      exact List.mem_append.mpr (Or.inr (List.mem_append.mpr (Or.inl hkmem)))
    exact compute_test_file_present _ score metricF queries epoch _ hND hNDf hkin
  · intro hnd hndk
    exact compute_test_nonndcg l1 l2 n ats j score metricF queries epoch hND hNDf hnd hj hndk
  · intro hnd hw
    exact compute_test_ndcg l1 l2 n ats j score metricF queries epoch hND hNDf hnd hj hw

/-- C10 witness: in a run configured with an ndcg metric at cutoff 1 and an
mrr metric at cutoff 2, the mrr file is created empty and mrr_2 is absent
from the returned dictionary, while ndcg_1 is present with the per-query
mean. -/
theorem C10_witness :
    alookup (compute_test specX scoreX metricX queriesX 0).dict "ndcg_1" =
      some (npMeanFlat (queriesX.map (colAt metricX scoreX "ndcg" [1] 0)))
    ∧ alookup (compute_test specX scoreX metricX queriesX 0).files (mfile 0 "mrr_2") = some []
    ∧ alookup (compute_test specX scoreX metricX queriesX 0).dict "mrr_2" = none := by
  have h1 := C10_ndcg_only_export specX scoreX metricX queriesX 0 "ndcg" [1] 0
    (by decide) (by decide) (by decide) (by decide)
  have h2 := C10_ndcg_only_export specX scoreX metricX queriesX 0 "mrr" [2] 0
    (by decide) (by decide) (by decide) (by decide)
  exact ⟨(h1.2.2 (by decide) (by decide)).2, (h2.2.1 (by decide) (by decide)).1,
    (h2.2.1 (by decide) (by decide)).2⟩

/-- C6: when the batched path and the per-query path see the same
per-example metric rows (same model, same validation split, one example
per query), the value `compute_metrics` computes for a restricted-subset
key equals the value `compute_test` returns for it: both are the mean over
all queries of the per-query metric value at that cutoff. -/
theorem C6_aggregation_paths_agree :
    ∀ (spec : List (String × List ℕ)) (score : ScoreFn) (metricF : MetricFn)
      (dl : List TBatch) (queries : List Query) (epoch : ℕ)
      (n : String) (ats : List ℕ) (j : ℕ) (rowOf : Query → List ℚ),
      (n, ats) ∈ spec → containsNdcg n = true →
      (metricKeys spec).Nodup → ((metricKeys spec).map (mfile epoch)).Nodup →
      queries ≠ [] → j < ats.length →
      (∀ q ∈ queries, metricF n ats (predOf score q) [q.y] = [rowOf q]) →
      ((dl.map (metric_on_batch (metricF n ats) score)).flatten = queries.map rowOf) →
      (∀ q ∈ queries, ats.length ≤ (rowOf q).length) →
      (alookup (compute_metrics spec metricF score dl) ((keysOf n ats).getD j "") =
        some ((queries.map (fun q => (rowOf q).getD j 0)).sum / (queries.length : ℚ)))
      ∧ (alookup (compute_test spec score metricF queries epoch).dict
          ((keysOf n ats).getD j "") =
        some ((queries.map (fun q => (rowOf q).getD j 0)).sum / (queries.length : ℚ)))
      ∧ (alookup (compute_metrics spec metricF score dl) ((keysOf n ats).getD j "") =
        alookup (compute_test spec score metricF queries epoch).dict
          ((keysOf n ats).getD j "")) := by
  intro spec score metricF dl queries epoch n ats j rowOf hmem hnd hND hNDf hq hj hsing
    hrows hlen
  obtain ⟨l1, l2, hspec⟩ := List.append_of_mem hmem
  subst hspec
  obtain ⟨q0, qs, hqe⟩ := List.exists_cons_of_ne_nil hq
  have hwidth : ((((dl.map (metric_on_batch (metricF n ats) score)).flatten).headD []).length) =
      (rowOf q0).length := by
    rw [hrows, hqe]
    rfl
  have hq0len : ats.length ≤ (rowOf q0).length := by
    apply hlen q0
    rw [hqe]
    exact List.mem_cons_self q0 qs
  have hjw : j < (((dl.map (metric_on_batch (metricF n ats) score)).flatten).headD []).length := by
    rw [hwidth]
    exact lt_of_lt_of_le hj hq0len
  have hmel : ats.length ≤ (metric_on_epoch (metricF n ats) score dl).length := by
    rw [metric_on_epoch_length, hwidth]
    exact hq0len
  have hA := compute_metrics_lookup l1 l2 n ats j metricF score dl hND hj hmel
  have hval : (metric_on_epoch (metricF n ats) score dl).getD j 0 =
      (queries.map (fun q => (rowOf q).getD j 0)).sum / (queries.length : ℚ) := by
    rw [metric_on_epoch_getD (metricF n ats) score dl j hjw, hrows, List.map_map,
      List.length_map]
    rfl
  rw [hval] at hA
  have hw : ∀ q ∈ queries,
      ats.length ≤ ((metricF n ats (predOf score q) [q.y]).headD []).length := by
    intro q hq2
    rw [hsing q hq2]
    exact hlen q hq2
  have hB := (compute_test_ndcg l1 l2 n ats j score metricF queries epoch hND hNDf hnd hj hw).2
  have hcol : queries.map (colAt metricF score n ats j) =
      queries.map (fun q => [(rowOf q).getD j 0]) := by
    apply List.map_congr_left
    intro q hq2
    unfold colAt
    rw [hsing q hq2]
    rfl
  have hmean : npMeanFlat (queries.map (colAt metricF score n ats j)) =
      (queries.map (fun q => (rowOf q).getD j 0)).sum / (queries.length : ℚ) := by
    rw [hcol]
    unfold npMeanFlat
    rw [flatten_map_singleton, List.length_map]
  rw [hmean] at hB
  exact ⟨hA, hB, hA.trans hB.symm⟩

/-- C6 witness: a concrete split of two one-example queries, batched as a
single two-example batch, on which both aggregation paths return the same
ndcg_1 value. -/
theorem C6_witness :
    alookup (compute_metrics specX metricX scoreX dlX) "ndcg_1" =
      some ((queriesX.map (fun q => (rowX q).getD 0 0)).sum / (queriesX.length : ℚ))
    ∧ alookup (compute_test specX scoreX metricX queriesX 0).dict "ndcg_1" =
      some ((queriesX.map (fun q => (rowX q).getD 0 0)).sum / (queriesX.length : ℚ))
    ∧ alookup (compute_metrics specX metricX scoreX dlX) "ndcg_1" =
      alookup (compute_test specX scoreX metricX queriesX 0).dict "ndcg_1" := by
  have h := C6_aggregation_paths_agree specX scoreX metricX dlX queriesX 0 "ndcg" [1] 0 rowX
    (by decide) (by decide) (by decide) (by decide) (by decide) (by decide)
    (by decide) (by decide) (by decide)
  exact h

end AR
